/-
Verification of the Reversi/Othello engine in `src/Iago.py` (board state,
move generation, evaluation, and the alpha-beta AI).

The Python code is shallowly embedded: grids are lists of lists of `Nat`
cell values, Python ints are `Int` (or `Nat` where the value is provably a
count), the mutating methods of `Board` become functions `Board → Board`
(returning the updated record, paired with the `Bool` result where the
Python method returns one), and the AI's mutable transposition table is
threaded explicitly.  Python's `while` loops over board rays are modelled
with a fuel argument equal to the board size, which is provably enough for
every in-board starting cell (a ray leaves an `n × n` board after at most
`n` steps).  Python stacks (`history`, `redo_stack`) push/pop at the list
tail; we keep the most recent snapshot at the head of the Lean list, which
is the same stack.  The chronological `move_list` keeps Python's order
exactly (appending at the tail).
-/
import Mathlib

namespace Iago

/-! ## Core game state (`Iago.py`, "Core game state" section) -/

abbrev Cell := Nat

def EMPTY : Cell := 0
def BLACK : Cell := 1
def WHITE : Cell := 2

/-- `OPP = {BLACK: WHITE, WHITE: BLACK}`; only ever applied to `BLACK`/`WHITE`. -/
def OPP (c : Cell) : Cell := if c = BLACK then WHITE else BLACK

def DIRS : List (Int × Int) :=
  [(-1, -1), (-1, 0), (-1, 1), (0, -1), (0, 1), (1, -1), (1, 0), (1, 1)]

structure Move where
  row : Int
  col : Int
  flips : List (Int × Int)
deriving DecidableEq, Repr

/-- A history snapshot: (grid copy, side to move). -/
abbrev Snap := List (List Cell) × Cell

structure Board where
  size : Nat
  grid : List (List Cell)
  to_move : Cell
  history : List Snap
  redo_stack : List Snap
  move_list : List (Int × Int × Int)
deriving DecidableEq, Repr

/-- `grid[r][c]` (both indices in range whenever used; out-of-range reads
return `EMPTY`, which every call site guards against with `inside`). -/
def gridGet (g : List (List Cell)) (r c : Int) : Cell :=
  (g.getD r.toNat []).getD c.toNat EMPTY

/-- `grid[r][c] = v` (in-range at every call site). -/
def setCell (g : List (List Cell)) (r c : Int) (v : Cell) : List (List Cell) :=
  g.set r.toNat ((g.getD r.toNat []).set c.toNat v)

/-- `Board.inside`: `0 <= r < self.size and 0 <= c < self.size`. -/
def insideN (n : Nat) (r c : Int) : Bool :=
  0 ≤ r && r < (n : Int) && 0 ≤ c && c < (n : Int)

/-- `__post_init__`: blank grid with the four centre discs placed. -/
def initGrid (n : Nat) : List (List Cell) :=
  let g0 := List.replicate n (List.replicate n EMPTY)
  let m : Int := (n : Int) / 2
  setCell (setCell (setCell (setCell g0 (m-1) (m-1) WHITE) m m WHITE) (m-1) m BLACK)
    m (m-1) BLACK

/-- `Board(size=n)` freshly constructed. -/
def Board.fresh (n : Nat) : Board :=
  { size := n, grid := initGrid n, to_move := BLACK,
    history := [], redo_stack := [], move_list := [] }

/-- The `while` loop of `legal_moves`: starting at `(rr, cc)`, collect the
contiguous run of `opp`-colored discs in direction `(dr, dc)` and also
return the first position after the run (Python's final `rr, cc`).  `fuel`
bounds the iteration count; callers pass the board size, which suffices for
every in-board origin. -/
def runLoop (g : List (List Cell)) (n : Nat) (opp : Cell) (dr dc : Int) :
    Int → Int → Nat → List (Int × Int) × Int × Int
  | rr, cc, 0 => ([], rr, cc)
  | rr, cc, fuel+1 =>
    if insideN n rr cc && (gridGet g rr cc == opp) then
      let rest := runLoop g n opp dr dc (rr + dr) (cc + dc) fuel
      ((rr, cc) :: rest.1, rest.2)
    else ([], rr, cc)

/-- One direction of the `legal_moves` scan: the collected `line` if it is
non-empty and terminated by a same-color disc, else `[]`. -/
def dirFlips (g : List (List Cell)) (n : Nat) (color : Cell) (r c dr dc : Int) :
    List (Int × Int) :=
  let res := runLoop g n (OPP color) dr dc (r + dr) (c + dc) n
  if !res.1.isEmpty && insideN n res.2.1 res.2.2 &&
      (gridGet g res.2.1 res.2.2 == color) then res.1 else []

/-- The flip set of a candidate cell: the directional runs concatenated in
`DIRS` order (`flips.extend(line)` per direction). -/
def moveFlips (g : List (List Cell)) (n : Nat) (color : Cell) (r c : Int) :
    List (Int × Int) :=
  (DIRS.map (fun d => dirFlips g n color r c d.1 d.2)).flatten

/-- `color = color or self.to_move`: `None` (and the falsy `0`, which no
caller passes) defaults to the current side. -/
def defaultColor (c? : Option Cell) (t : Cell) : Cell :=
  match c? with
  | none => t
  | some c => if c = 0 then t else c

/-- `Board.legal_moves`: row-major scan of all empty cells. -/
def Board.legal_moves (b : Board) (c? : Option Cell) : List Move :=
  let color := defaultColor c? b.to_move
  (List.range b.size).flatMap (fun (r : Nat) =>
    (List.range b.size).filterMap (fun (c : Nat) =>
      if gridGet b.grid (r : Int) (c : Int) ≠ EMPTY then none
      else
        let flips := moveFlips b.grid b.size color (r : Int) (c : Int)
        if flips.isEmpty then none else some ⟨(r : Int), (c : Int), flips⟩))

/-- `Board.make_move`: push a history snapshot, clear redo, place the disc,
recolor the flips, log the move, switch side.  No validation is performed:
the move is applied verbatim whether or not it is legal. -/
def Board.make_move (b : Board) (mv : Move) : Board :=
  { b with
    history := (b.grid, b.to_move) :: b.history,
    redo_stack := [],
    grid := mv.flips.foldl (fun g p => setCell g p.1 p.2 b.to_move)
      (setCell b.grid mv.row mv.col b.to_move),
    move_list := b.move_list ++ [((b.to_move : Int), mv.row, mv.col)],
    to_move := OPP b.to_move }

/-- `Board.pass_turn`: snapshot, clear redo, log `(-1, -1)`, switch side. -/
def Board.pass_turn (b : Board) : Board :=
  { b with
    history := (b.grid, b.to_move) :: b.history,
    redo_stack := [],
    move_list := b.move_list ++ [((b.to_move : Int), -1, -1)],
    to_move := OPP b.to_move }

/-- `Board.undo`: returns `(False, unchanged)` on empty history; otherwise
pushes the present state on the redo stack, restores the popped snapshot,
and pops the last move-log entry if the log is non-empty. -/
def Board.undo (b : Board) : Bool × Board :=
  match b.history with
  | [] => (false, b)
  | (g, t) :: rest =>
    (true,
      { b with
        redo_stack := (b.grid, b.to_move) :: b.redo_stack,
        history := rest,
        grid := g,
        to_move := t,
        move_list := b.move_list.dropLast })

/-- `Board.redo`: returns `(False, unchanged)` on empty redo stack;
otherwise pushes the present state on the history stack and restores the
popped snapshot.  The move log is untouched. -/
def Board.redo (b : Board) : Bool × Board :=
  match b.redo_stack with
  | [] => (false, b)
  | (g, t) :: rest =>
    (true,
      { b with
        history := (b.grid, b.to_move) :: b.history,
        redo_stack := rest,
        grid := g,
        to_move := t })

/-- `Board.score`: `(black count, white count)`. -/
def Board.score (b : Board) : Nat × Nat :=
  (b.grid.flatten.count BLACK, b.grid.flatten.count WHITE)

/-- `Board.game_over`: neither color has a legal move. -/
def Board.game_over (b : Board) : Bool :=
  (b.legal_moves (some BLACK)).isEmpty && (b.legal_moves (some WHITE)).isEmpty

/-- The persisted object `{size, grid, to_move, move_list}`; `none` models a
missing dictionary key. -/
structure SObj where
  size : Option Nat
  grid : Option (List (List Cell))
  to_move : Option Cell
  move_list : Option (List (Int × Int × Int))
deriving DecidableEq, Repr

/-- `Board.serialize`. -/
def Board.serialize (b : Board) : SObj :=
  { size := some b.size, grid := some b.grid, to_move := some b.to_move,
    move_list := some b.move_list }

/-- `Board.deserialize`: `obj.get("size", 8)` (no error for a missing
`size`), then `obj["grid"]` and `obj["to_move"]` (`KeyError` when missing,
modelled as `Except.error`), `obj.get("move_list", [])`, and cleared
history/redo stacks. -/
def Board.deserialize (obj : SObj) : Except String Board :=
  match obj.grid with
  | none => .error "KeyError: grid"
  | some g =>
    match obj.to_move with
    | none => .error "KeyError: to_move"
    | some t =>
      .ok { size := obj.size.getD 8, grid := g, to_move := t,
            history := [], redo_stack := [], move_list := obj.move_list.getD [] }

/-- States reachable from a fresh board through legal moves and passes
(spec §3 invariant; used only as a hypothesis of claim C1). -/
inductive Reachable : Board → Prop where
  | fresh (n : Nat) : Reachable (Board.fresh n)
  | move {b : Board} (mv : Move) : Reachable b →
      mv ∈ b.legal_moves (some b.to_move) → Reachable (b.make_move mv)
  | pass {b : Board} : Reachable b →
      b.legal_moves (some b.to_move) = [] → Reachable b.pass_turn

/-! ## AI (`Iago.py`, "AI" section) -/

def PST4 : List (List Int) :=
  [[200, -50, -50, 200],
   [-50, -100, -100, -50],
   [-50, -100, -100, -50],
   [200, -50, -50, 200]]

def PST6 : List (List Int) :=
  [[120, -20, 20, 20, -20, 120],
   [-20, -40, -5, -5, -40, -20],
   [20, -5, 15, 15, -5, 20],
   [20, -5, 15, 15, -5, 20],
   [-20, -40, -5, -5, -40, -20],
   [120, -20, 20, 20, -20, 120]]

def PST8 : List (List Int) :=
  [[120, -20, 20, 5, 5, 20, -20, 120],
   [-20, -40, -5, -5, -5, -5, -40, -20],
   [20, -5, 15, 3, 3, 15, -5, 20],
   [5, -5, 3, 3, 3, 3, -5, 5],
   [5, -5, 3, 3, 3, 3, -5, 5],
   [20, -5, 15, 3, 3, 15, -5, 20],
   [-20, -40, -5, -5, -5, -5, -40, -20],
   [120, -20, 20, 5, 5, 20, -20, 120]]

def PST10 : List (List Int) :=
  [[150, -25, 25, 10, 5, 5, 10, 25, -25, 150],
   [-25, -50, -8, -8, -8, -8, -8, -8, -50, -25],
   [25, -8, 20, 5, 3, 3, 5, 20, -8, 25],
   [10, -8, 5, 5, 3, 3, 5, 5, -8, 10],
   [5, -8, 3, 3, 3, 3, 3, 3, -8, 5],
   [5, -8, 3, 3, 3, 3, 3, 3, -8, 5],
   [10, -8, 5, 5, 3, 3, 5, 5, -8, 10],
   [25, -8, 20, 5, 3, 3, 5, 20, -8, 25],
   [-25, -50, -8, -8, -8, -8, -8, -8, -50, -25],
   [150, -25, 25, 10, 5, 5, 10, 25, -25, 150]]

def PST12 : List (List Int) :=
  [[180, -30, 30, 15, 8, 5, 5, 8, 15, 30, -30, 180],
   [-30, -60, -10, -10, -10, -8, -8, -10, -10, -10, -60, -30],
   [30, -10, 25, 8, 5, 3, 3, 5, 8, 25, -10, 30],
   [15, -10, 8, 8, 5, 3, 3, 5, 8, 8, -10, 15],
   [8, -10, 5, 5, 3, 3, 3, 3, 5, 5, -10, 8],
   [5, -8, 3, 3, 3, 3, 3, 3, 3, 3, -8, 5],
   [5, -8, 3, 3, 3, 3, 3, 3, 3, 3, -8, 5],
   [8, -10, 5, 5, 3, 3, 3, 3, 5, 5, -10, 8],
   [15, -10, 8, 8, 5, 3, 3, 5, 8, 8, -10, 15],
   [30, -10, 25, 8, 5, 3, 3, 5, 8, 25, -10, 30],
   [-30, -60, -10, -10, -10, -8, -8, -10, -10, -10, -60, -30],
   [180, -30, 30, 15, 8, 5, 5, 8, 15, 30, -30, 180]]

/-- The dynamically generated PST for sizes without a literal template. -/
def gen_pst (n : Nat) : List (List Int) :=
  (List.range n).map (fun (r : Nat) =>
    (List.range n).map (fun (c : Nat) =>
      let ri : Int := r
      let ci : Int := c
      let ni : Int := n
      if (ri = 0 ∨ ri = ni - 1) ∧ (ci = 0 ∨ ci = ni - 1) then 150
      else if ((ri = 0 ∨ ri = ni - 1) ∧ (ci = 1 ∨ ci = ni - 2)) ∨
          ((ci = 0 ∨ ci = ni - 1) ∧ (ri = 1 ∨ ri = ni - 2)) then -40
      else if (ri = 1 ∧ ci = 1) ∨ (ri = 1 ∧ ci = ni - 2) ∨
          (ri = ni - 2 ∧ ci = 1) ∨ (ri = ni - 2 ∧ ci = ni - 2) then -20
      else if ri = 0 ∨ ri = ni - 1 ∨ ci = 0 ∨ ci = ni - 1 then 25
      else
        let center : Int := ni / 2
        let dist : Int := Int.ofNat (Max.max (ri - center).natAbs (ci - center).natAbs)
        Max.max 0 (10 - dist * 2)))

/-- `AI.get_pst`: the literal template when the size has one, else generated. -/
def get_pst (n : Nat) : List (List Int) :=
  if n = 4 then PST4
  else if n = 6 then PST6
  else if n = 8 then PST8
  else if n = 10 then PST10
  else if n = 12 then PST12
  else gen_pst n

/-- `pst[r][c] if r < len(pst) and c < len(pst[0]) else 0` (indices are
never negative at the call sites: they come from range scans or generated
moves). -/
def pstAt (pst : List (List Int)) (r c : Int) : Int :=
  if r < (pst.length : Int) ∧ c < ((pst.getD 0 []).length : Int) then
    (pst.getD r.toNat []).getD c.toNat 0
  else 0

namespace AI

/-- `AI.is_corner`. -/
def is_corner (r c : Int) (size : Nat) : Bool :=
  (r == 0 || r == (size : Int) - 1) && (c == 0 || c == (size : Int) - 1)

/-- `AI.count_frontier_discs`: number of `color` discs with at least one
empty 8-neighbor (the Python `break` makes the inner loop an `any`). -/
def count_frontier_discs (b : Board) (color : Cell) : Nat :=
  ((List.range b.size).map (fun (r : Nat) =>
    ((List.range b.size).filter (fun (c : Nat) =>
      gridGet b.grid (r : Int) (c : Int) == color &&
        DIRS.any (fun d =>
          insideN b.size ((r : Int) + d.1) ((c : Int) + d.2) &&
            (gridGet b.grid ((r : Int) + d.1) ((c : Int) + d.2) == EMPTY)))).length)).sum

/-- The `for r / for c` accumulation loop of `AI.evaluate`, carrying the
pair `(positional, corner_count)`. -/
def positional_corner (b : Board) (color : Cell) : Int × Int :=
  (List.range b.size).foldl (fun acc (r : Nat) =>
    (List.range b.size).foldl (fun acc (c : Nat) =>
      let piece := gridGet b.grid (r : Int) (c : Int)
      if piece ≠ EMPTY then
        let value := pstAt (get_pst b.size) (r : Int) (c : Int)
        if piece = color then
          (acc.1 + value, acc.2 + (if is_corner (r : Int) (c : Int) b.size then 1 else 0))
        else
          (acc.1 - value, acc.2 - (if is_corner (r : Int) (c : Int) b.size then 1 else 0))
      else acc) acc) ((0 : Int), (0 : Int))

/-- `AI.evaluate`.  `game_phase = total_pieces / max_pieces` is a Python
float used only in the two branch tests `< 0.25` and `< 0.75`; both are
modelled by the exact rational comparisons `4*total < max` and
`4*total < 3*max`, which coincide with the float comparisons for every
supported board size (`max_pieces ≤ 256`, so a quotient can never be
rounded across the exactly-representable thresholds). -/
def evaluate (b : Board) (color : Cell) : Int :=
  let s := b.score
  let total_pieces := s.1 + s.2
  let max_pieces := b.size * b.size
  let material : Int :=
    if color = BLACK then (s.1 : Int) - (s.2 : Int) else (s.2 : Int) - (s.1 : Int)
  let my_moves := (b.legal_moves (some color)).length
  let opp_moves := (b.legal_moves (some (OPP color))).length
  let mobility : Int := (my_moves : Int) - (opp_moves : Int)
  let pc := positional_corner b color
  let positional := pc.1
  let corner_count := pc.2
  let frontier_penalty : Int := count_frontier_discs b color
  if 4 * total_pieces < max_pieces then
    positional * 4 + mobility * 15 + corner_count * 100 - frontier_penalty * 2
  else if 4 * total_pieces < 3 * max_pieces then
    positional * 3 + mobility * 8 + corner_count * 150 + material * 5 - frontier_penalty
  else
    material * 100 + corner_count * 50 + positional

/-- `AI.is_dangerous_square`: adjacent (but not equal) to an empty corner. -/
def is_dangerous_square (r c : Int) (size : Nat) (b : Board) : Bool :=
  let corners : List (Int × Int) :=
    [(0, 0), (0, (size : Int) - 1), ((size : Int) - 1, 0), ((size : Int) - 1, (size : Int) - 1)]
  corners.any (fun q =>
    (gridGet b.grid q.1 q.2 == EMPTY) &&
      ((r - q.1).natAbs ≤ 1) && ((c - q.2).natAbs ≤ 1) &&
      !(r == q.1 && c == q.2))

/-- `AI.quick_move_eval` (the `color` parameter is unused in the Python
body as well). -/
def quick_move_eval (b : Board) (mv : Move) (color : Cell) : Int :=
  let pst := get_pst b.size
  let score := pstAt pst mv.row mv.col + (mv.flips.length : Int) * 10
  if is_corner mv.row mv.col b.size then score + 2000
  else if is_dangerous_square mv.row mv.col b.size b then score - 500
  else score

/-- Build `(quick_move_eval, move)` pairs, stable-sort them by score
descending (Python's `list.sort(key=..., reverse=True)` is stable), and
drop the scores.  Shared by `choose` and `search`. -/
def order_moves (b : Board) (color : Cell) (moves : List Move) : List Move :=
  ((moves.map (fun m => (quick_move_eval b m color, m))).mergeSort
    (fun x y => decide (y.1 ≤ x.1))).map (fun x => x.2)

end AI

/-- Python float scores: every concrete score is an `Int`, but `alpha`,
`beta` and the running best start at `±float("inf")`. -/
inductive Ext where
  | negInf : Ext
  | fin : Int → Ext
  | posInf : Ext
deriving DecidableEq, Repr

namespace Ext

/-- Unary minus on scores/window bounds. -/
def neg : Ext → Ext
  | negInf => posInf
  | fin n => fin (-n)
  | posInf => negInf

/-- Strict `<` on Python floats restricted to the values we use. -/
def blt : Ext → Ext → Bool
  | negInf, negInf => false
  | negInf, _ => true
  | fin _, negInf => false
  | fin m, fin n => m < n
  | fin _, posInf => true
  | posInf, _ => false

/-- Python `max` (returns the first argument on ties). -/
def max (a b : Ext) : Ext := if blt a b then b else a

end Ext

/-- The transposition table: Python keys the dict by
`str(board.serialize())`, which distinguishes exactly the distinct
serialized objects, so we key on the serialized object itself.  Values are
`(depth, score)`. -/
abbrev Table := List (SObj × Nat × Ext)

def tlookup (T : Table) (k : SObj) : Option (Nat × Ext) :=
  (T.find? (fun e => e.1 == k)).map (fun e => e.2)

/-- Dict assignment: at most one entry per key. -/
def tinsert (T : Table) (k : SObj) (v : Nat × Ext) : Table :=
  (k, v) :: T.filter (fun e => !(e.1 == k))

/-- `Board.deserialize(board.serialize())` followed by `.to_move = color`:
the per-node clone used by `choose` and `search`. -/
def cloneFor (b : Board) (color : Cell) : Board :=
  match Board.deserialize b.serialize with
  | .ok nb => { nb with to_move := color }
  | .error _ => { b with to_move := color }

mutual

/-- `AI.search(board, depth, alpha, beta, color)` with the table threaded
explicitly; the `nodes_searched` counter is diagnostic only and omitted.
`depth` is a natural number (every call site passes a non-negative depth;
`depth <= 0` is the `0` case). -/
def searchAB (b : Board) (depth : Nat) (alpha beta : Ext) (color : Cell) (T : Table) :
    Ext × Table :=
  match depth with
  | 0 => (.fin (AI.evaluate b color), T)
  | d + 1 =>
    if b.game_over then (.fin (AI.evaluate b color), T)
    else
      match tlookup T b.serialize with
      | some cv =>
        if d + 1 ≤ cv.1 then (cv.2, T) else searchMain b d alpha beta color T
      | none => searchMain b d alpha beta color T
termination_by (depth, 2, 0)

/-- `AI.search` below the cache lookup, at `depth = d + 1`: terminal
double-pass scoring, single pass, or the alpha-beta move loop followed by
the cache store. -/
def searchMain (b : Board) (d : Nat) (alpha beta : Ext) (color : Cell) (T : Table) :
    Ext × Table :=
  let moves := b.legal_moves (some color)
  if moves.isEmpty then
    if (b.legal_moves (some (OPP color))).isEmpty then
      let s := b.score
      if color = BLACK then
        ((if s.1 > s.2 then .fin 100000 else if s.2 > s.1 then .fin (-100000) else .fin 0), T)
      else
        ((if s.2 > s.1 then .fin 100000 else if s.1 > s.2 then .fin (-100000) else .fin 0), T)
    else
      let r := searchAB b d beta.neg alpha.neg (OPP color) T
      (r.1.neg, r.2)
  else
    let ms := if d + 1 > 2 then AI.order_moves b color moves else moves
    let r := searchLoop b d beta color ms .negInf alpha T
    (r.1, tinsert r.2 b.serialize (d + 1, r.1))
termination_by (d + 1, 1, 0)

/-- The `for move in moves` loop of `AI.search`, carrying the running best
value and alpha, with the `alpha >= beta` break. -/
def searchLoop (b : Board) (d : Nat) (beta : Ext) (color : Cell) :
    List Move → Ext → Ext → Table → Ext × Table
  | [], best, _, T => (best, T)
  | mv :: rest, best, alpha, T =>
    let bc := (cloneFor b color).make_move mv
    let r := searchAB bc d beta.neg alpha.neg (OPP color) T
    let value := r.1.neg
    let best' := Ext.max best value
    let alpha' := Ext.max alpha value
    if !(Ext.blt alpha' beta) then (best', r.2)
    else searchLoop b d beta color rest best' alpha' r.2
termination_by ms => (d + 1, 0, ms.length)

end

/-- The `for _, move in scored_moves` loop of `AI.choose`: collects the
best-scoring moves (`beta` stays `+∞` throughout, so `-beta = -∞`). -/
def chooseLoop (b : Board) (color : Cell) (adaptive_depth : Nat) :
    List Move → Ext → List Move → Ext → Table → List Move × Table
  | [], _, best_moves, _, T => (best_moves, T)
  | mv :: rest, best_score, best_moves, alpha, T =>
    let bc := (cloneFor b color).make_move mv
    let r := searchAB bc (adaptive_depth - 1) Ext.negInf alpha.neg (OPP color) T
    let score := r.1.neg
    if Ext.blt best_score score then
      chooseLoop b color adaptive_depth rest score [mv] (Ext.max alpha score) r.2
    else if score = best_score then
      chooseLoop b color adaptive_depth rest best_score (best_moves ++ [mv]) alpha r.2
    else
      chooseLoop b color adaptive_depth rest best_score best_moves alpha r.2

/-- `AI.choose(board, color)` for an engine configured with `max_depth`,
with the transposition table passed in (a fresh engine has `T = []`) and
`rng.choice` modelled by an arbitrary index `seed` reduced mod the number
of tied best moves, so theorems quantified over `seed` cover every
possible random outcome.  `game_phase > 0.8` is the exact rational test
`5*total > 4*max` (see `AI.evaluate` on float fidelity). -/
def choose (max_depth : Nat) (seed : Nat) (b : Board) (color : Cell) (T : Table) :
    Option Move :=
  let moves := b.legal_moves (some color)
  if moves.isEmpty then none
  else
    let s := b.score
    let total_pieces := s.1 + s.2
    let max_pieces := b.size * b.size
    let move_count := moves.length
    let adaptive_depth :=
      if 5 * total_pieces > 4 * max_pieces ∨ move_count ≤ 4 then Min.min (max_depth + 2) 8
      else if move_count > 15 then Max.max (max_depth - 1) 3
      else max_depth
    let T := if T.length > 10000 then [] else T
    let ms := AI.order_moves b color moves
    let r := chooseLoop b color adaptive_depth ms Ext.negInf [] Ext.negInf T
    let best_moves := r.1
    if best_moves.isEmpty then moves.head? else best_moves[seed % best_moves.length]?

/-! ## Spec-side search definitions (for claim C1)

`fullSearch` is the unpruned full minimax of the claim, written from the
spec's words (§4.3, negamax form): same terminal evaluation and pass
handling as `search`, but every child is explored in the generated order,
with no window, no cache and no move ordering.  `pureAB`/`pureMain`/
`pureLoop` are `search` with the transposition table erased; they are the
bridge between the two. -/

/-- The spec's unpruned negamax ("full minimax") of a given depth. -/
def fullSearch (b : Board) (depth : Nat) (color : Cell) : Ext :=
  match depth with
  | 0 => .fin (AI.evaluate b color)
  | d + 1 =>
    if b.game_over then .fin (AI.evaluate b color)
    else
      let moves := b.legal_moves (some color)
      if moves.isEmpty then
        if (b.legal_moves (some (OPP color))).isEmpty then
          let s := b.score
          if color = BLACK then
            (if s.1 > s.2 then .fin 100000 else if s.2 > s.1 then .fin (-100000) else .fin 0)
          else
            (if s.2 > s.1 then .fin 100000 else if s.1 > s.2 then .fin (-100000) else .fin 0)
        else (fullSearch b d (OPP color)).neg
      else
        moves.foldl
          (fun acc mv =>
            Ext.max acc (fullSearch ((cloneFor b color).make_move mv) d (OPP color)).neg)
          Ext.negInf
termination_by (depth, 0)
decreasing_by all_goals simp_wf <;> omega

mutual

/-- `AI.search` with the transposition table erased (lookups and stores
removed); everything else, including move ordering and the alpha-beta
break, is unchanged. -/
def pureAB (b : Board) (depth : Nat) (alpha beta : Ext) (color : Cell) : Ext :=
  match depth with
  | 0 => .fin (AI.evaluate b color)
  | d + 1 =>
    if b.game_over then .fin (AI.evaluate b color)
    else pureMain b d alpha beta color
termination_by (depth, 2, 0)

/-- Cache-free counterpart of `searchMain`. -/
def pureMain (b : Board) (d : Nat) (alpha beta : Ext) (color : Cell) : Ext :=
  let moves := b.legal_moves (some color)
  if moves.isEmpty then
    if (b.legal_moves (some (OPP color))).isEmpty then
      let s := b.score
      if color = BLACK then
        (if s.1 > s.2 then .fin 100000 else if s.2 > s.1 then .fin (-100000) else .fin 0)
      else
        (if s.2 > s.1 then .fin 100000 else if s.1 > s.2 then .fin (-100000) else .fin 0)
    else (pureAB b d beta.neg alpha.neg (OPP color)).neg
  else
    let ms := if d + 1 > 2 then AI.order_moves b color moves else moves
    pureLoop b d beta color ms .negInf alpha
termination_by (d + 1, 1, 0)

/-- Cache-free counterpart of `searchLoop`. -/
def pureLoop (b : Board) (d : Nat) (beta : Ext) (color : Cell) :
    List Move → Ext → Ext → Ext
  | [], best, _ => best
  | mv :: rest, best, alpha =>
    let value := (pureAB ((cloneFor b color).make_move mv) d beta.neg alpha.neg (OPP color)).neg
    let best' := Ext.max best value
    let alpha' := Ext.max alpha value
    if !(Ext.blt alpha' beta) then best'
    else pureLoop b d beta color rest best' alpha'
termination_by ms => (d + 1, 0, ms.length)

end

/-- The grid is a `size × size` matrix. -/
def GridWF (g : List (List Cell)) (n : Nat) : Prop :=
  g.length = n ∧ ∀ row ∈ g, row.length = n

instance (g : List (List Cell)) (n : Nat) : Decidable (GridWF g n) := by
  unfold GridWF; infer_instance

/-- Coordinates inside the board. -/
def inRange (n : Nat) (r c : Int) : Prop :=
  0 ≤ r ∧ r < (n : Int) ∧ 0 ≤ c ∧ c < (n : Int)

instance (n : Nat) (r c : Int) : Decidable (inRange n r c) := by
  unfold inRange; infer_instance

/-- A finished board (every cell black): both colors are out of moves. -/
def fullBlack4 : Board :=
  { size := 4, grid := List.replicate 4 (List.replicate 4 BLACK), to_move := BLACK,
    history := [], redo_stack := [], move_list := [] }

/-! ## Spec-side evaluation components (claim C9, spec §4.2)

Each component is written from the spec's prose, independently of the
accumulating loop in `AI.evaluate`. -/

/-- Every cell is Empty, Black or White (spec §3 data model). -/
def CellsWF (b : Board) : Prop :=
  ∀ x ∈ b.grid.flatten, x = EMPTY ∨ x = BLACK ∨ x = WHITE

instance (b : Board) : Decidable (CellsWF b) := by
  unfold CellsWF; infer_instance

/-- `phase` numerator: the number of occupied cells. -/
def filled_cells (b : Board) : Nat :=
  b.grid.flatten.countP (fun x => !(x == EMPTY))

/-- material = own_count − opp_count (signed to `color`). -/
def material_spec (b : Board) (color : Cell) : Int :=
  (b.grid.flatten.count color : Int) - (b.grid.flatten.count (OPP color) : Int)

/-- mobility = |legal_moves(color)| − |legal_moves(opponent)|. -/
def mobility_spec (b : Board) (color : Cell) : Int :=
  ((b.legal_moves (some color)).length : Int) -
    ((b.legal_moves (some (OPP color))).length : Int)

/-- positional = Σ over occupied cells of PST[r][c], added if owned by
`color`, subtracted if owned by the opponent. -/
def positional_spec (b : Board) (color : Cell) : Int :=
  ((List.range b.size).map (fun (r : Nat) =>
    ((List.range b.size).map (fun (c : Nat) =>
      let piece := gridGet b.grid (r : Int) (c : Int)
      if piece ≠ EMPTY then
        (if piece = color then pstAt (get_pst b.size) (r : Int) (c : Int)
         else -pstAt (get_pst b.size) (r : Int) (c : Int))
      else 0)).sum)).sum

/-- corner_count: ±1 per corner owned/lost. -/
def corner_count_spec (b : Board) (color : Cell) : Int :=
  ((List.range b.size).map (fun (r : Nat) =>
    ((List.range b.size).map (fun (c : Nat) =>
      let piece := gridGet b.grid (r : Int) (c : Int)
      if piece ≠ EMPTY then
        (if AI.is_corner (r : Int) (c : Int) b.size then
          (if piece = color then 1 else -1) else 0)
      else 0)).sum)).sum

/-- frontier_penalty = count of `color`'s discs adjacent (8-neighborhood)
to at least one empty cell. -/
def frontier_spec (b : Board) (color : Cell) : Nat :=
  ((List.range b.size).map (fun (r : Nat) =>
    (List.range b.size).countP (fun (c : Nat) =>
      gridGet b.grid (r : Int) (c : Int) == color &&
        DIRS.any (fun d =>
          insideN b.size ((r : Int) + d.1) ((c : Int) + d.2) &&
            (gridGet b.grid ((r : Int) + d.1) ((c : Int) + d.2) == EMPTY))))).sum

/-! ## Spec-side move generation (claim C7, spec §4.1)

Written from the spec's prose: for an empty cell, each of the 8 directions
contributes the contiguous run of opponent discs starting next to the cell
provided the run is non-empty and terminated (inside the board) by a disc
of the mover's color; the cell is a legal move iff some direction
contributes, and its flip set is the concatenation of the contributions. -/

/-- The successive positions along a ray: `start + k·d` for `k < fuel`. -/
def rayFrom (rr cc dr dc : Int) (fuel : Nat) : List (Int × Int) :=
  (List.range fuel).map (fun (k : Nat) => (rr + (k : Int) * dr, cc + (k : Int) * dc))

/-- The positions probed from cell `(r, c)` in direction `(dr, dc)`:
`(r + k·dr, c + k·dc)` for `k = 1, …, n`. -/
def specRay (n : Nat) (r c dr dc : Int) : List (Int × Int) :=
  (List.range n).map (fun (k : Nat) =>
    (r + ((k : Int) + 1) * dr, c + ((k : Int) + 1) * dc))

/-- The qualifying directional run from the spec's words: the maximal
contiguous run of in-board opponent discs along the ray, kept only when it
is non-empty and the next ray position holds a disc of `color` inside the
board. -/
def specRun (g : List (List Cell)) (n : Nat) (color : Cell) (r c dr dc : Int) :
    List (Int × Int) :=
  let ray := specRay n r c dr dc
  let run := ray.takeWhile (fun p => insideN n p.1 p.2 && (gridGet g p.1 p.2 == OPP color))
  match ray[run.length]? with
  | some p =>
    if run ≠ [] ∧ insideN n p.1 p.2 ∧ gridGet g p.1 p.2 = color then run else []
  | none => []

/-- The spec's `legal_moves`: row-major scan of the empty cells, flips the
concatenation of the qualifying directional runs. -/
def legalMovesSpec (b : Board) (color : Cell) : List Move :=
  (List.range b.size).flatMap (fun (r : Nat) =>
    (List.range b.size).filterMap (fun (c : Nat) =>
      if gridGet b.grid (r : Int) (c : Int) = EMPTY then
        (let flips := (DIRS.map (fun d =>
            specRun b.grid b.size color (r : Int) (c : Int) d.1 d.2)).flatten
         if flips ≠ [] then some ⟨(r : Int), (c : Int), flips⟩ else none)
      else none))

/-- Row-major order: earlier rows first, then earlier columns. -/
def rowMajorLt (m1 m2 : Move) : Prop :=
  m1.row < m2.row ∨ (m1.row = m2.row ∧ m1.col < m2.col)

/-- A 4×4 position in which Black has exactly one legal move,
`(0,2)` flipping `(0,1)` (used as the witness input of claim C8). -/
def singleMove4 : Board :=
  { size := 4,
    grid := [[BLACK, WHITE, EMPTY, EMPTY],
             [EMPTY, EMPTY, EMPTY, EMPTY],
             [EMPTY, EMPTY, EMPTY, EMPTY],
             [EMPTY, EMPTY, EMPTY, EMPTY]],
    to_move := BLACK, history := [], redo_stack := [], move_list := [] }

/-! ## Definitions supporting the claim C1 proof

`childValue`/`trueFold` name the negamax child value and the running
maximum that `fullSearch` computes over a move list; the `ml…`/`T…`
predicates track that every transposition-table key written during a
search extends the move log of the node that wrote it, which is what makes
every lookup of a search started on an empty table miss. -/

/-- The negamax value of one child, negated back to the parent's
perspective. -/
def childValue (b : Board) (d : Nat) (color : Cell) (mv : Move) : Ext :=
  (fullSearch ((cloneFor b color).make_move mv) d (OPP color)).neg

/-- Fold of `Ext.max` over the child values, starting from `best`. -/
def trueFold (b : Board) (d : Nat) (color : Cell) (ms : List Move) (best : Ext) : Ext :=
  ms.foldl (fun acc mv => Ext.max acc (childValue b d color mv)) best

/-- `L` is an initial segment of `ml`. -/
def mlPre (L ml : List (Int × Int × Int)) : Prop := ∃ t, L ++ t = ml

/-- The key's move list has `L` as an initial segment. -/
def keyExtends (L : List (Int × Int × Int)) (k : SObj) : Prop :=
  ∃ ml, k.move_list = some ml ∧ mlPre L ml

/-- No key in the table extends `L`: the table cannot answer any lookup
made in the subtree rooted at a node whose move log is `L`. -/
def TFresh (L : List (Int × Int × Int)) (T : Table) : Prop :=
  ∀ e ∈ T, ¬ keyExtends L e.1

/-- Every entry of `T'` is an entry of `T` or has a key extending `L`. -/
def TNew (L : List (Int × Int × Int)) (T T' : Table) : Prop :=
  ∀ e ∈ T', e ∈ T ∨ keyExtends L e.1

/-- Mid-loop table invariant: any key extending `L` extends it strictly,
by a first extra log entry that is not one of the still-unexplored moves. -/
def TFreshRest (L : List (Int × Int × Int)) (color : Cell) (rest : List Move)
    (T : Table) : Prop :=
  ∀ e ∈ T, ∀ ml, e.1.move_list = some ml → mlPre L ml →
    ∃ x t, ml = L ++ x :: t ∧ ∀ mv ∈ rest, x ≠ ((color : Int), mv.row, mv.col)

/-- Two moves target different cells. -/
def keyNe (m1 m2 : Move) : Prop := (m1.row, m1.col) ≠ (m2.row, m2.col)

-- Sanity anchors (spec §8): the fresh 4×4 board for Black has exactly the
-- four moves (0,1),(1,0),(2,3),(3,2), each flipping one disc.
example :
    (Board.fresh 4).legal_moves (some BLACK) =
      [⟨0, 1, [(1, 1)]⟩, ⟨1, 0, [(1, 1)]⟩, ⟨2, 3, [(2, 2)]⟩, ⟨3, 2, [(2, 2)]⟩] := by
  decide

example : (Board.fresh 4).score = (2, 2) := by decide

example : (Board.fresh 4).game_over = false := by decide

/-! ## Grid update lemmas (supporting claims C4 and C5) -/

lemma getD_set_self {α : Type} (l : List α) (i : Nat) (v d : α) (h : i < l.length) :
    (l.set i v).getD i d = v := by
  simp [List.getD_eq_getElem?_getD, List.getElem?_set_self, h]

lemma getD_set_ne {α : Type} (l : List α) {i j : Nat} (v d : α) (h : i ≠ j) :
    (l.set i v).getD j d = l.getD j d := by
  simp [List.getD_eq_getElem?_getD, List.getElem?_set_ne h]

lemma GridWF.row_length {g : List (List Cell)} {n : Nat} (hg : GridWF g n)
    {r : Int} (hr : 0 ≤ r ∧ r < (n : Int)) : (g.getD r.toNat []).length = n := by
  have hgl := hg.1
  have hlt : r.toNat < g.length := by omega
  rw [List.getD_eq_getElem?_getD, List.getElem?_eq_getElem hlt]
  exact hg.2 _ (List.getElem_mem hlt)

lemma GridWF.setCell {g : List (List Cell)} {n : Nat} (hg : GridWF g n)
    {r c : Int} (h : inRange n r c) (v : Cell) : GridWF (setCell g r c v) n := by
  obtain ⟨hgl, hrows⟩ := hg
  refine ⟨by simp [Iago.setCell, hgl], ?_⟩
  intro row hrow
  rcases List.mem_or_eq_of_mem_set hrow with hmem | heq
  · exact hrows _ hmem
  · subst heq
    rw [List.length_set]
    exact GridWF.row_length ⟨hgl, hrows⟩ ⟨h.1, h.2.1⟩

lemma gridGet_setCell {g : List (List Cell)} {n : Nat} (hg : GridWF g n)
    {r c : Int} (h : inRange n r c) (v : Cell) {r' c' : Int} (h' : inRange n r' c') :
    gridGet (setCell g r c v) r' c' =
      if r' = r ∧ c' = c then v else gridGet g r' c' := by
  obtain ⟨hr0, hrn, hc0, hcn⟩ := h
  obtain ⟨hr0', hrn', hc0', hcn'⟩ := h'
  have hgl := hg.1
  have hrow : (g.getD r.toNat []).length = n := hg.row_length ⟨hr0, hrn⟩
  unfold gridGet Iago.setCell
  by_cases hr : r' = r
  · rw [hr]
    have hlt : r.toNat < g.length := by omega
    rw [getD_set_self _ _ _ _ hlt]
    by_cases hc : c' = c
    · rw [hc, if_pos ⟨rfl, rfl⟩]
      have hcl : c.toNat < (g.getD r.toNat []).length := by omega
      rw [getD_set_self _ _ _ _ hcl]
    · rw [if_neg (fun hx => hc hx.2)]
      have hne : c.toNat ≠ c'.toNat := by omega
      rw [getD_set_ne _ _ _ hne]
  · rw [if_neg (fun hx => hr hx.1)]
    have hne : r.toNat ≠ r'.toNat := by omega
    rw [getD_set_ne _ _ _ hne]

lemma gridGet_foldl_setCell (ps : List (Int × Int)) (g : List (List Cell)) (v : Cell)
    {n : Nat} (hg : GridWF g n) (hps : ∀ p ∈ ps, inRange n p.1 p.2)
    {r c : Int} (hrc : inRange n r c) :
    gridGet (ps.foldl (fun g p => setCell g p.1 p.2 v) g) r c =
      if (r, c) ∈ ps then v else gridGet g r c := by
  induction ps generalizing g with
  | nil => simp
  | cons p ps ih =>
    have hp := hps p (List.mem_cons_self ..)
    have step := ih (setCell g p.1 p.2 v) (hg.setCell hp v)
      (fun q hq => hps q (List.mem_cons_of_mem _ hq))
    rw [List.foldl_cons, step, gridGet_setCell hg hp v hrc]
    by_cases hmem : (r, c) ∈ ps
    · simp [hmem]
    · by_cases hpc : (r, c) = p
      · have : r = p.1 ∧ c = p.2 := by rw [Prod.ext_iff] at hpc; exact hpc
        simp [hmem, hpc, this]
      · have : ¬(r = p.1 ∧ c = p.2) := by
          intro hx; exact hpc (Prod.ext_iff.mpr ⟨hx.1, hx.2⟩)
        simp [hmem, hpc, this]

/-! ## Claims C3–C6 and C10 -/

/-- Claim C3, counterexample: a persisted object missing the `size` key
(but with `grid` and `to_move` present) does **not** raise —
`deserialize` silently defaults the size to 8 — refuting "raises an error
exactly when ... missing any of the keys grid, size, or to_move". -/
theorem deserialize_missing_size_ok :
    (⟨none, some (initGrid 4), some BLACK, none⟩ : SObj).size = none ∧
    Board.deserialize ⟨none, some (initGrid 4), some BLACK, none⟩ =
      .ok { size := 8, grid := initGrid 4, to_move := BLACK,
            history := [], redo_stack := [], move_list := [] } :=
  ⟨rfl, rfl⟩

/-- Claim C3 (amended): `Board.deserialize` fails exactly when `grid` or
`to_move` is missing; a missing `size` defaults to 8 and a missing
`move_list` to `[]`, so every object containing `grid` and `to_move`
succeeds. -/
theorem deserialize_ok_iff_grid_tomove (obj : SObj) :
    (∃ b, Board.deserialize obj = .ok b) ↔ (obj.grid.isSome ∧ obj.to_move.isSome) := by
  obtain ⟨sz, g?, t?, ml?⟩ := obj
  cases g? <;> cases t? <;> simp [Board.deserialize]

/-- Claim C4, counterexample: on the fresh 4×4 board the move `(0,0)` with
no flips is not legal, yet `make_move` neither signals failure (it is
infallible in the code: no validation, no exception path) nor leaves the
state unchanged — it mutates the grid, the side to move, and the move
log. -/
theorem make_move_illegal_mutates :
    (⟨0, 0, []⟩ : Move) ∉ (Board.fresh 4).legal_moves (some (Board.fresh 4).to_move) ∧
    ((Board.fresh 4).make_move ⟨0, 0, []⟩).grid ≠ (Board.fresh 4).grid ∧
    ((Board.fresh 4).make_move ⟨0, 0, []⟩).to_move ≠ (Board.fresh 4).to_move ∧
    ((Board.fresh 4).make_move ⟨0, 0, []⟩).move_list ≠ (Board.fresh 4).move_list := by
  decide

/-- Claim C4 (amended): `make_move` performs no validation at all.  For
every state and every in-board move — legal or not — it unconditionally
places the disc, recolors exactly the listed flip cells, switches the
side, appends the move to the log, pushes a history snapshot, and clears
the redo stack; an illegal move therefore silently corrupts the state
instead of failing fast, and callers must check `legal_moves` first. -/
theorem make_move_applies_unconditionally (b : Board) (mv : Move)
    (hg : GridWF b.grid b.size)
    (hm : inRange b.size mv.row mv.col)
    (hf : ∀ p ∈ mv.flips, inRange b.size p.1 p.2) :
    (∀ r c : Int, inRange b.size r c →
      gridGet (b.make_move mv).grid r c =
        if (r = mv.row ∧ c = mv.col) ∨ (r, c) ∈ mv.flips then b.to_move
        else gridGet b.grid r c) ∧
    (b.make_move mv).to_move = OPP b.to_move ∧
    (b.make_move mv).move_list = b.move_list ++ [((b.to_move : Int), mv.row, mv.col)] ∧
    (b.make_move mv).history = (b.grid, b.to_move) :: b.history ∧
    (b.make_move mv).redo_stack = [] := by
  refine ⟨?_, rfl, rfl, rfl, rfl⟩
  intro r c hrc
  show gridGet (mv.flips.foldl (fun g p => setCell g p.1 p.2 b.to_move)
      (setCell b.grid mv.row mv.col b.to_move)) r c = _
  rw [gridGet_foldl_setCell mv.flips _ b.to_move (hg.setCell hm b.to_move) hf hrc,
    gridGet_setCell hg hm b.to_move hrc]
  by_cases hfl : (r, c) ∈ mv.flips
  · simp [hfl]
  · simp [hfl]

/-- Claim C4, witness for the amended theorem. -/
theorem make_move_applies_unconditionally_witness :
    GridWF (Board.fresh 4).grid (Board.fresh 4).size ∧
    inRange (Board.fresh 4).size (0 : Int) (0 : Int) ∧
    ((Board.fresh 4).make_move ⟨0, 0, []⟩).to_move = OPP (Board.fresh 4).to_move :=
  ⟨by decide, by decide,
    (make_move_applies_unconditionally (Board.fresh 4) ⟨0, 0, []⟩ (by decide) (by decide)
      (by decide)).2.1⟩

/-- Claim C5: applying a legal move and then `undo` returns `True` and
restores exactly the prior grid, the prior side to move, and the prior
move-log length; `undo` on a state with empty history returns `False`. -/
theorem make_move_undo_roundtrip (b : Board) (mv : Move)
    (h : mv ∈ b.legal_moves (some b.to_move)) :
    ((b.make_move mv).undo).1 = true ∧
    ((b.make_move mv).undo).2.grid = b.grid ∧
    ((b.make_move mv).undo).2.to_move = b.to_move ∧
    ((b.make_move mv).undo).2.move_list.length = b.move_list.length ∧
    (∀ c : Board, c.history = [] → (c.undo).1 = false) := by
  refine ⟨rfl, rfl, rfl, ?_, ?_⟩
  · show ((b.move_list ++ [((b.to_move : Int), mv.row, mv.col)]).dropLast).length
        = b.move_list.length
    rw [List.dropLast_concat]
  · intro c hc
    unfold Board.undo
    rw [hc]

/-- Claim C5, witness. -/
theorem make_move_undo_roundtrip_witness :
    (⟨0, 1, [(1, 1)]⟩ : Move) ∈ (Board.fresh 4).legal_moves (some (Board.fresh 4).to_move) ∧
    (((Board.fresh 4).make_move ⟨0, 1, [(1, 1)]⟩).undo).2.grid = (Board.fresh 4).grid :=
  ⟨by decide, (make_move_undo_roundtrip (Board.fresh 4) ⟨0, 1, [(1, 1)]⟩ (by decide)).2.1⟩

/-- Claim C6: `deserialize (serialize state)` yields a state with identical
grid, size, to_move and move_list, and with empty undo history and empty
redo stack. -/
theorem deserialize_serialize_roundtrip (b : Board) :
    Board.deserialize b.serialize =
      .ok { size := b.size, grid := b.grid, to_move := b.to_move,
            history := [], redo_stack := [], move_list := b.move_list } := rfl

/-- Claim C10, counterexample: a state with non-empty history but an empty
move log (reachable through the public operations: make a move, undo,
redo) violates "after undo() then redo() the move log is exactly one entry
shorter than it was before the undo" — the log was empty and stays empty. -/
theorem undo_redo_empty_log_cex :
    (let b3 : Board := ((((Board.fresh 4).make_move ⟨0, 1, [(1, 1)]⟩).undo).2.redo).2
     b3.history ≠ [] ∧ b3.move_list = [] ∧
       ¬(((b3.undo).2.redo).2.move_list.length + 1 = b3.move_list.length)) := by
  decide

/-- Claim C10 (amended): for every state with non-empty history,
`redo` after `undo` restores the grid and the side to move to their values
before the undo and leaves the move log exactly as `undo` left it (`redo`
never appends a log entry); the log is exactly one entry shorter than
before the undo whenever it was non-empty before the undo (`undo` only
pops the log when it is non-empty, so an empty log stays empty). -/
theorem undo_redo_restores (b : Board) (h : b.history ≠ []) :
    ((b.undo).1 = true) ∧
    (((b.undo).2.redo).1 = true) ∧
    ((b.undo).2.redo).2.grid = b.grid ∧
    ((b.undo).2.redo).2.to_move = b.to_move ∧
    ((b.undo).2.redo).2.move_list = ((b.undo).2).move_list ∧
    ((b.undo).2).move_list = b.move_list.dropLast ∧
    (b.move_list ≠ [] →
      ((b.undo).2.redo).2.move_list.length + 1 = b.move_list.length) := by
  match hist : b.history with
  | [] => exact absurd hist h
  | (g, t) :: rest =>
    unfold Board.undo
    rw [hist]
    refine ⟨rfl, rfl, rfl, rfl, rfl, rfl, ?_⟩
    intro hml
    simp only [Board.redo, List.length_dropLast]
    have : b.move_list.length ≠ 0 := by
      intro h0; exact hml (List.eq_nil_of_length_eq_zero h0)
    omega

/-- Claim C10, witness for the amended theorem. -/
theorem undo_redo_restores_witness :
    ((Board.fresh 4).make_move ⟨0, 1, [(1, 1)]⟩).history ≠ [] ∧
    ((((Board.fresh 4).make_move ⟨0, 1, [(1, 1)]⟩).undo).2.redo).2.grid =
      ((Board.fresh 4).make_move ⟨0, 1, [(1, 1)]⟩).grid :=
  ⟨by decide,
    (undo_redo_restores ((Board.fresh 4).make_move ⟨0, 1, [(1, 1)]⟩) (by decide)).2.2.1⟩

/-! ## Claim C2 -/

/-- Claim C2, counterexample: on a board where both sides have no legal
move (every cell black), `search` for Black — who has strictly more discs
— returns `evaluate`'s value 1800, **not** 100000: the `depth <= 0 or
game_over` check precedes the ±100000 comparison, which is unreachable. -/
theorem search_gameover_not_pm100000 :
    fullBlack4.legal_moves (some BLACK) = [] ∧ fullBlack4.legal_moves (some WHITE) = [] ∧
      fullBlack4.score.1 > fullBlack4.score.2 ∧
      (searchAB fullBlack4 1 Ext.negInf Ext.posInf BLACK []).1 = Ext.fin 1800 ∧
      (searchAB fullBlack4 1 Ext.negInf Ext.posInf BLACK []).1 ≠ Ext.fin 100000 := by
  rw [searchAB.eq_def]
  exact ⟨by decide, by decide, by decide, by decide, by decide⟩

/-- Claim C2 (amended): whenever the color passed to `search` has no legal
move and neither does the opponent, `search` returns `evaluate(state,
color)` unchanged for every depth, window, and table — the game-over check
fires before the ±100000 disc-count comparison can be reached. -/
theorem search_gameover_returns_evaluate (b : Board) (depth : Nat) (alpha beta : Ext)
    (color : Cell) (T : Table)
    (hb : b.legal_moves (some BLACK) = []) (hw : b.legal_moves (some WHITE) = []) :
    searchAB b depth alpha beta color T = (.fin (AI.evaluate b color), T) := by
  have hover : b.game_over = true := by
    simp [Board.game_over, hb, hw]
  cases depth with
  | zero => rw [searchAB.eq_def]
  | succ d => rw [searchAB.eq_def]; simp [hover]

/-- Claim C2, witness. -/
theorem search_gameover_returns_evaluate_witness :
    fullBlack4.legal_moves (some BLACK) = [] ∧ fullBlack4.legal_moves (some WHITE) = [] ∧
      searchAB fullBlack4 3 Ext.negInf Ext.posInf WHITE [] =
        (.fin (AI.evaluate fullBlack4 WHITE), []) :=
  ⟨by decide, by decide,
    search_gameover_returns_evaluate fullBlack4 3 Ext.negInf Ext.posInf WHITE []
      (by decide) (by decide)⟩

/-! ## Claim C9 -/

lemma foldl_pair_split {α : Type} (l : List α) (body : Int × Int → α → Int × Int)
    (f g : α → Int) (hb : ∀ acc x, body acc x = (acc.1 + f x, acc.2 + g x)) (a c : Int) :
    l.foldl body (a, c) = (a + (l.map f).sum, c + (l.map g).sum) := by
  induction l generalizing a c with
  | nil => simp
  | cons x xs ih =>
    rw [List.foldl_cons, hb, ih]
    simp [add_assoc]

lemma count_split (l : List Cell) (h : ∀ x ∈ l, x = EMPTY ∨ x = BLACK ∨ x = WHITE) :
    l.countP (fun x => !(x == EMPTY)) = l.count BLACK + l.count WHITE := by
  induction l with
  | nil => simp
  | cons x xs ih =>
    have hxs := ih (fun y hy => h y (List.mem_cons_of_mem _ hy))
    rcases h x (List.mem_cons_self ..) with rfl | rfl | rfl <;>
      simp [List.countP_cons, List.count_cons, EMPTY, BLACK, WHITE] at hxs ⊢ <;> omega

lemma positional_corner_eq (b : Board) (color : Cell) :
    AI.positional_corner b color = (positional_spec b color, corner_count_spec b color) := by
  unfold AI.positional_corner
  rw [foldl_pair_split (List.range b.size) _
    (fun (r : Nat) => ((List.range b.size).map (fun (c : Nat) =>
      let piece := gridGet b.grid (r : Int) (c : Int)
      if piece ≠ EMPTY then
        (if piece = color then pstAt (get_pst b.size) (r : Int) (c : Int)
         else -pstAt (get_pst b.size) (r : Int) (c : Int))
      else 0)).sum)
    (fun (r : Nat) => ((List.range b.size).map (fun (c : Nat) =>
      let piece := gridGet b.grid (r : Int) (c : Int)
      if piece ≠ EMPTY then
        (if AI.is_corner (r : Int) (c : Int) b.size then
          (if piece = color then 1 else -1) else 0)
      else 0)).sum)
    (by
      intro acc r
      rw [foldl_pair_split (List.range b.size) _
        (fun (c : Nat) =>
          let piece := gridGet b.grid (r : Int) (c : Int)
          if piece ≠ EMPTY then
            (if piece = color then pstAt (get_pst b.size) (r : Int) (c : Int)
             else -pstAt (get_pst b.size) (r : Int) (c : Int))
          else 0)
        (fun (c : Nat) =>
          let piece := gridGet b.grid (r : Int) (c : Int)
          if piece ≠ EMPTY then
            (if AI.is_corner (r : Int) (c : Int) b.size then
              (if piece = color then 1 else -1) else 0)
          else 0)
        (by
          intro acc c
          dsimp only
          split_ifs <;> simp [Prod.ext_iff, sub_eq_add_neg]) acc.1 acc.2])
    0 0]
  simp [positional_spec, corner_count_spec]

lemma count_frontier_eq (b : Board) (color : Cell) :
    AI.count_frontier_discs b color = frontier_spec b color := by
  unfold AI.count_frontier_discs frontier_spec
  simp only [List.countP_eq_length_filter]

/-- Claim C9: `evaluate` is exactly the phase-blended integer score of the
spec, with `phase = filled_cells/(size*size)` and the spec's material,
mobility, positional, corner-count and frontier components.  The two float
comparisons `phase < 0.25` and `phase < 0.75` are the exact rational tests
`4*filled < size²` and `4*filled < 3*size²` (see `AI.evaluate`). -/
theorem evaluate_phase_blend (b : Board) (color : Cell)
    (hc : color = BLACK ∨ color = WHITE) (hW : CellsWF b) :
    AI.evaluate b color =
      (if 4 * filled_cells b < b.size * b.size then
        positional_spec b color * 4 + mobility_spec b color * 15 +
          corner_count_spec b color * 100 - (frontier_spec b color : Int) * 2
      else if 4 * filled_cells b < 3 * (b.size * b.size) then
        positional_spec b color * 3 + mobility_spec b color * 8 +
          corner_count_spec b color * 150 + material_spec b color * 5 -
          (frontier_spec b color : Int)
      else
        material_spec b color * 100 + corner_count_spec b color * 50 +
          positional_spec b color) := by
  have htot : b.score.1 + b.score.2 = filled_cells b := by
    unfold Board.score filled_cells
    exact (count_split _ hW).symm
  have hmat :
      (if color = BLACK then (b.score.1 : Int) - (b.score.2 : Int)
       else (b.score.2 : Int) - (b.score.1 : Int)) = material_spec b color := by
    rcases hc with rfl | rfl
    · rw [if_pos rfl]; rfl
    · rw [if_neg (by decide)]; rfl
  unfold AI.evaluate
  simp only [positional_corner_eq, count_frontier_eq, htot, hmat]
  rfl

/-- Claim C9, witness. -/
theorem evaluate_phase_blend_witness :
    (BLACK = BLACK ∨ BLACK = WHITE) ∧ CellsWF (Board.fresh 4) ∧
    AI.evaluate (Board.fresh 4) BLACK =
      (if 4 * filled_cells (Board.fresh 4) < (Board.fresh 4).size * (Board.fresh 4).size then
        positional_spec (Board.fresh 4) BLACK * 4 + mobility_spec (Board.fresh 4) BLACK * 15 +
          corner_count_spec (Board.fresh 4) BLACK * 100 -
          (frontier_spec (Board.fresh 4) BLACK : Int) * 2
      else if 4 * filled_cells (Board.fresh 4) <
          3 * ((Board.fresh 4).size * (Board.fresh 4).size) then
        positional_spec (Board.fresh 4) BLACK * 3 + mobility_spec (Board.fresh 4) BLACK * 8 +
          corner_count_spec (Board.fresh 4) BLACK * 150 +
          material_spec (Board.fresh 4) BLACK * 5 -
          (frontier_spec (Board.fresh 4) BLACK : Int)
      else
        material_spec (Board.fresh 4) BLACK * 100 +
          corner_count_spec (Board.fresh 4) BLACK * 50 +
          positional_spec (Board.fresh 4) BLACK) :=
  ⟨Or.inl rfl, by decide,
    evaluate_phase_blend (Board.fresh 4) BLACK (Or.inl rfl) (by decide)⟩

/-! ## Claim C7 -/

lemma insideN_iff (n : Nat) (r c : Int) :
    insideN n r c = true ↔ (0 ≤ r ∧ r < (n : Int) ∧ 0 ≤ c ∧ c < (n : Int)) := by
  simp [insideN, and_assoc]

lemma rayFrom_succ (rr cc dr dc : Int) (fuel : Nat) :
    rayFrom rr cc dr dc (fuel + 1) =
      (rr, cc) :: rayFrom (rr + dr) (cc + dc) dr dc fuel := by
  unfold rayFrom
  rw [List.range_succ_eq_map, List.map_cons, List.map_map]
  refine congrArg₂ _ (by simp) (List.map_congr_left ?_)
  intro k _
  simp only [Function.comp_apply]
  refine congrArg₂ _ ?_ ?_ <;> push_cast <;> ring

lemma runLoop_eq (g : List (List Cell)) (n : Nat) (opp : Cell) (dr dc : Int) :
    ∀ (fuel : Nat) (rr cc : Int),
      runLoop g n opp dr dc rr cc fuel =
        ((rayFrom rr cc dr dc fuel).takeWhile
            (fun p => insideN n p.1 p.2 && (gridGet g p.1 p.2 == opp)),
         rr + ((rayFrom rr cc dr dc fuel).takeWhile
            (fun p => insideN n p.1 p.2 && (gridGet g p.1 p.2 == opp))).length * dr,
         cc + ((rayFrom rr cc dr dc fuel).takeWhile
            (fun p => insideN n p.1 p.2 && (gridGet g p.1 p.2 == opp))).length * dc) := by
  intro fuel
  induction fuel with
  | zero =>
    intro rr cc
    simp [runLoop, rayFrom]
  | succ fuel ih =>
    intro rr cc
    rw [runLoop, rayFrom_succ, List.takeWhile_cons]
    by_cases hcond : (insideN n rr cc && (gridGet g rr cc == opp)) = true
    · rw [if_pos hcond, if_pos hcond, ih (rr + dr) (cc + dc)]
      simp only [List.length_cons]
      refine congrArg₂ _ rfl (congrArg₂ _ ?_ ?_) <;> push_cast <;> ring
    · rw [if_neg hcond, if_neg hcond]
      simp

lemma specRay_eq_rayFrom (n : Nat) (r c dr dc : Int) :
    specRay n r c dr dc = rayFrom (r + dr) (c + dc) dr dc n := by
  unfold specRay rayFrom
  refine List.map_congr_left ?_
  intro k _
  refine congrArg₂ _ ?_ ?_ <;> push_cast <;> ring

lemma takeWhile_length_le_of_getElem_false {α : Type} (p : α → Bool) :
    ∀ (l : List α) (i : Nat) (h : i < l.length), p (l[i]) = false →
      (l.takeWhile p).length ≤ i := by
  intro l
  induction l with
  | nil => intro i h; simp at h
  | cons a l ih =>
    intro i h hp
    match i with
    | 0 =>
      rw [List.takeWhile_cons]
      simp only [List.getElem_cons_zero] at hp
      simp [hp]
    | i + 1 =>
      rw [List.takeWhile_cons]
      by_cases ha : p a = true
      · rw [if_pos ha]
        simp only [List.length_cons]
        have := ih i (by simpa using h) (by simpa using hp)
        omega
      · rw [if_neg ha]
        simp

lemma specRun_takeWhile_length_lt (g : List (List Cell)) (n : Nat) (color : Cell)
    {r c dr dc : Int} (hr : 0 ≤ r ∧ r < (n : Int)) (hc : 0 ≤ c ∧ c < (n : Int))
    (hd : (dr, dc) ∈ DIRS) :
    ((specRay n r c dr dc).takeWhile
      (fun p => insideN n p.1 p.2 && (gridGet g p.1 p.2 == OPP color))).length < n := by
  have hn : 1 ≤ n := by omega
  have hlen : (specRay n r c dr dc).length = n := by simp [specRay]
  have hidx : n - 1 < (specRay n r c dr dc).length := by omega
  have helem : (specRay n r c dr dc)[n-1] =
      (r + (n : Int) * dr, c + (n : Int) * dc) := by
    simp only [specRay, List.getElem_map, List.getElem_range]
    refine congrArg₂ _ ?_ ?_ <;> rw [Nat.cast_sub hn] <;> push_cast <;> ring
  have hfail :
      (insideN n (r + (n : Int) * dr) (c + (n : Int) * dc) &&
        (gridGet g (r + (n : Int) * dr) (c + (n : Int) * dc) == OPP color)) = false := by
    have : insideN n (r + (n : Int) * dr) (c + (n : Int) * dc) = false := by
      rw [← Bool.not_eq_true, insideN_iff]
      fin_cases hd <;> simp <;> omega
    simp [this]
  have := takeWhile_length_le_of_getElem_false
    (fun p => insideN n p.1 p.2 && (gridGet g p.1 p.2 == OPP color))
    (specRay n r c dr dc) (n - 1) hidx (by rw [helem]; exact hfail)
  omega

lemma dirFlips_eq_specRun (g : List (List Cell)) (n : Nat) (color : Cell)
    {r c dr dc : Int} (hr : 0 ≤ r ∧ r < (n : Int)) (hc : 0 ≤ c ∧ c < (n : Int))
    (hd : (dr, dc) ∈ DIRS) :
    dirFlips g n color r c dr dc = specRun g n color r c dr dc := by
  unfold dirFlips specRun
  dsimp only
  rw [runLoop_eq, ← specRay_eq_rayFrom]
  dsimp only
  set run := (specRay n r c dr dc).takeWhile
    (fun p => insideN n p.1 p.2 && (gridGet g p.1 p.2 == OPP color)) with hrun
  have hlt : run.length < n := specRun_takeWhile_length_lt g n color hr hc hd
  have hlen : (specRay n r c dr dc).length = n := by simp [specRay]
  have hidx : run.length < (specRay n r c dr dc).length := by omega
  rw [List.getElem?_eq_getElem hidx]
  have helem : (specRay n r c dr dc)[run.length] =
      (r + ((run.length : Int) + 1) * dr, c + ((run.length : Int) + 1) * dc) := by
    simp [specRay, List.getElem_map, List.getElem_range]
  have hpos1 : r + dr + (run.length : Int) * dr = r + ((run.length : Int) + 1) * dr := by ring
  have hpos2 : c + dc + (run.length : Int) * dc = c + ((run.length : Int) + 1) * dc := by ring
  simp only [helem, hpos1, hpos2]
  by_cases hcond : run ≠ [] ∧
      insideN n (r + ((run.length : Int) + 1) * dr) (c + ((run.length : Int) + 1) * dc) = true ∧
      gridGet g (r + ((run.length : Int) + 1) * dr) (c + ((run.length : Int) + 1) * dc) = color
  · rw [if_pos hcond]
    obtain ⟨h1, h2, h3⟩ := hcond
    have : (!run.isEmpty &&
        insideN n (r + ((run.length : Int) + 1) * dr) (c + ((run.length : Int) + 1) * dc) &&
        (gridGet g (r + ((run.length : Int) + 1) * dr) (c + ((run.length : Int) + 1) * dc)
          == color)) = true := by
      simp [h2, h3, List.isEmpty_iff, h1]
    rw [if_pos this]
  · rw [if_neg hcond]
    have : (!run.isEmpty &&
        insideN n (r + ((run.length : Int) + 1) * dr) (c + ((run.length : Int) + 1) * dc) &&
        (gridGet g (r + ((run.length : Int) + 1) * dr) (c + ((run.length : Int) + 1) * dc)
          == color)) = false := by
      rw [← Bool.not_eq_true]
      simp only [Bool.and_eq_true, Bool.not_eq_true', beq_iff_eq, List.isEmpty_iff,
        Bool.not_eq_eq_eq_not, Bool.not_true, Bool.not_eq_true]
      intro hx
      exact hcond ⟨by simpa using hx.1.1, hx.1.2, by simpa using hx.2⟩
    rw [if_neg (by simp [this])]

lemma legal_moves_default (b : Board) :
    b.legal_moves none = b.legal_moves (some b.to_move) := by
  unfold Board.legal_moves defaultColor
  simp

lemma legal_moves_eq_spec (b : Board) (color : Cell) (hc : color ≠ EMPTY) :
    b.legal_moves (some color) = legalMovesSpec b color := by
  unfold Board.legal_moves legalMovesSpec
  have hdc : defaultColor (some color) b.to_move = color := by
    unfold defaultColor
    simp [show color ≠ 0 from hc]
  rw [hdc]
  simp only [List.flatMap_def]
  refine congrArg _ (List.map_congr_left ?_)
  intro r hrmem
  refine List.filterMap_congr ?_
  intro c hcmem
  have hrn : r < b.size := List.mem_range.mp hrmem
  have hcn : c < b.size := List.mem_range.mp hcmem
  have hflips : moveFlips b.grid b.size color (r : Int) (c : Int) =
      (DIRS.map (fun d => specRun b.grid b.size color (r : Int) (c : Int) d.1 d.2)).flatten := by
    unfold moveFlips
    refine congrArg _ (List.map_congr_left ?_)
    intro d hdmem
    exact dirFlips_eq_specRun b.grid b.size color
      ⟨by omega, by exact_mod_cast hrn⟩ ⟨by omega, by exact_mod_cast hcn⟩
      (by simpa using hdmem)
  by_cases hcell : gridGet b.grid (r : Int) (c : Int) = EMPTY
  · rw [if_neg (by simp [hcell]), if_pos hcell]
    simp only [hflips]
    by_cases hfe :
        (DIRS.map (fun d => specRun b.grid b.size color (r : Int) (c : Int) d.1 d.2)).flatten = []
    · simp [hfe]
    · simp [hfe, List.isEmpty_iff]
  · rw [if_pos hcell, if_neg hcell]

lemma legal_moves_mem_iff (b : Board) (color : Cell) (hc : color ≠ EMPTY) (m : Move) :
    m ∈ b.legal_moves (some color) ↔
      ∃ r c : Nat, r < b.size ∧ c < b.size ∧ m.row = (r : Int) ∧ m.col = (c : Int) ∧
        gridGet b.grid (r : Int) (c : Int) = EMPTY ∧
        (∃ d ∈ DIRS, specRun b.grid b.size color (r : Int) (c : Int) d.1 d.2 ≠ []) ∧
        m.flips = (DIRS.map (fun d =>
          specRun b.grid b.size color (r : Int) (c : Int) d.1 d.2)).flatten := by
  rw [legal_moves_eq_spec b color hc]
  unfold legalMovesSpec
  rw [List.mem_flatMap]
  constructor
  · rintro ⟨r, hrmem, hm⟩
    obtain ⟨c, hcmem, hsome⟩ := List.mem_filterMap.mp hm
    by_cases hcell : gridGet b.grid (r : Int) (c : Int) = EMPTY
    · rw [if_pos hcell] at hsome
      dsimp only at hsome
      by_cases hfe : (DIRS.map (fun d =>
          specRun b.grid b.size color (r : Int) (c : Int) d.1 d.2)).flatten = []
      · rw [if_neg (by simp [hfe])] at hsome
        exact absurd hsome (by simp)
      · rw [if_pos hfe] at hsome
        obtain rfl := Option.some.inj hsome
        refine ⟨r, c, List.mem_range.mp hrmem, List.mem_range.mp hcmem, rfl, rfl, hcell,
          ?_, rfl⟩
        by_contra hall
        push_neg at hall
        refine hfe (List.flatten_eq_nil_iff.mpr ?_)
        intro l hl
        obtain ⟨d, hd, rfl⟩ := List.mem_map.mp hl
        exact hall d hd
    · rw [if_neg hcell] at hsome
      exact absurd hsome (by simp)
  · rintro ⟨r, c, hrn, hcn, hrow, hcol, hcell, ⟨d, hdmem, hdne⟩, hflips⟩
    refine ⟨r, List.mem_range.mpr hrn, List.mem_filterMap.mpr ⟨c, List.mem_range.mpr hcn, ?_⟩⟩
    rw [if_pos hcell]
    dsimp only
    have hfe : (DIRS.map (fun d =>
        specRun b.grid b.size color (r : Int) (c : Int) d.1 d.2)).flatten ≠ [] := by
      rw [Ne, List.flatten_eq_nil_iff]
      push_neg
      exact ⟨_, List.mem_map_of_mem _ hdmem, hdne⟩
    rw [if_pos hfe]
    obtain ⟨mr, mc, mf⟩ := m
    simp only at hrow hcol hflips
    rw [hrow, hcol, hflips]

lemma pairwise_rowMajor_scan (n : Nat) (f : Nat → Nat → Option Move)
    (hf : ∀ r c m, f r c = some m → m.row = (r : Int) ∧ m.col = (c : Int)) :
    ((List.range n).flatMap (fun r => (List.range n).filterMap (f r))).Pairwise rowMajorLt := by
  rw [List.flatMap_def]
  refine List.pairwise_flatten.mpr ⟨?_, ?_⟩
  · intro l' hl'
    obtain ⟨r, _, rfl⟩ := List.mem_map.mp hl'
    refine (List.pairwise_lt_range n).filterMap (f r) ?_
    intro c c' hcc m hm m' hm'
    rw [Option.mem_def] at hm hm'
    obtain ⟨h1, h2⟩ := hf r c m hm
    obtain ⟨h1', h2'⟩ := hf r c' m' hm'
    exact Or.inr ⟨by rw [h1, h1'], by rw [h2, h2']; exact_mod_cast hcc⟩
  · refine (List.pairwise_lt_range n).map _ ?_
    intro r r' hrr m hm m' hm'
    obtain ⟨c, _, hsome⟩ := List.mem_filterMap.mp hm
    obtain ⟨c', _, hsome'⟩ := List.mem_filterMap.mp hm'
    obtain ⟨h1, _⟩ := hf r c m hsome
    obtain ⟨h1', _⟩ := hf r' c' m' hsome'
    exact Or.inl (by rw [h1, h1']; exact_mod_cast hrr)

lemma legal_moves_pairwise (b : Board) (c? : Option Cell) :
    (b.legal_moves c?).Pairwise rowMajorLt := by
  unfold Board.legal_moves
  have hf : ∀ (r c : Nat) (m : Move),
      (if gridGet b.grid (r : Int) (c : Int) ≠ EMPTY then none
       else
        (let flips := moveFlips b.grid b.size (defaultColor c? b.to_move) (r : Int) (c : Int)
         if flips.isEmpty then none else some ⟨(r : Int), (c : Int), flips⟩)) = some m →
      m.row = (r : Int) ∧ m.col = (c : Int) := by
    intro r c m h
    by_cases h1 : gridGet b.grid (r : Int) (c : Int) ≠ EMPTY
    · rw [if_pos h1] at h
      exact absurd h (by simp)
    · rw [if_neg h1] at h
      dsimp only at h
      by_cases h2 :
          (moveFlips b.grid b.size (defaultColor c? b.to_move) (r : Int) (c : Int)).isEmpty
      · rw [if_pos h2] at h
        exact absurd h (by simp)
      · rw [if_neg h2] at h
        obtain rfl := Option.some.inj h
        exact ⟨rfl, rfl⟩
  exact pairwise_rowMajor_scan b.size _ hf

/-- Claim C7: `legal_moves(color)` returns exactly the moves `(r, c, flips)`
with `(r, c)` an empty in-board cell having at least one qualifying
direction (a non-empty contiguous run of opponent discs terminated, inside
the board, by a disc of `color`), with `flips` the concatenation of all
qualifying directional runs; the list is in strict row-major scan order
(hence deterministic, and empty exactly when no such cell exists), and an
omitted color defaults to the current side. -/
theorem legal_moves_spec_correct (b : Board) (color : Cell) (hc : color ≠ EMPTY) :
    b.legal_moves none = b.legal_moves (some b.to_move) ∧
    b.legal_moves (some color) = legalMovesSpec b color ∧
    (∀ m : Move, m ∈ b.legal_moves (some color) ↔
      ∃ r c : Nat, r < b.size ∧ c < b.size ∧ m.row = (r : Int) ∧ m.col = (c : Int) ∧
        gridGet b.grid (r : Int) (c : Int) = EMPTY ∧
        (∃ d ∈ DIRS, specRun b.grid b.size color (r : Int) (c : Int) d.1 d.2 ≠ []) ∧
        m.flips = (DIRS.map (fun d =>
          specRun b.grid b.size color (r : Int) (c : Int) d.1 d.2)).flatten) ∧
    (b.legal_moves (some color)).Pairwise rowMajorLt ∧
    (b.legal_moves (some color) = [] ↔
      ∀ r c : Nat, r < b.size → c < b.size →
        gridGet b.grid (r : Int) (c : Int) = EMPTY →
        ∀ d ∈ DIRS, specRun b.grid b.size color (r : Int) (c : Int) d.1 d.2 = []) := by
  refine ⟨legal_moves_default b, legal_moves_eq_spec b color hc,
    legal_moves_mem_iff b color hc, legal_moves_pairwise b (some color), ?_⟩
  constructor
  · intro hnil r c hrn hcn hcell d hdmem
    by_contra hdne
    have hm : (⟨(r : Int), (c : Int),
        (DIRS.map (fun d =>
          specRun b.grid b.size color (r : Int) (c : Int) d.1 d.2)).flatten⟩ : Move) ∈
        b.legal_moves (some color) :=
      (legal_moves_mem_iff b color hc _).mpr
        ⟨r, c, hrn, hcn, rfl, rfl, hcell, ⟨d, hdmem, hdne⟩, rfl⟩
    rw [hnil] at hm
    exact absurd hm (List.not_mem_nil _)
  · intro hall
    rw [List.eq_nil_iff_forall_not_mem]
    intro m hm
    obtain ⟨r, c, hrn, hcn, _, _, hcell, ⟨d, hdmem, hdne⟩, _⟩ :=
      (legal_moves_mem_iff b color hc m).mp hm
    exact hdne (hall r c hrn hcn hcell d hdmem)

/-- Claim C7, witness. -/
theorem legal_moves_spec_correct_witness :
    BLACK ≠ EMPTY ∧
    (Board.fresh 4).legal_moves (some BLACK) = legalMovesSpec (Board.fresh 4) BLACK :=
  ⟨by decide, (legal_moves_spec_correct (Board.fresh 4) BLACK (by decide)).2.1⟩

/-! ## Claim C8 -/

lemma blt_negInf_eq_false_iff (x : Ext) : Ext.blt Ext.negInf x = false ↔ x = Ext.negInf := by
  cases x <;> simp [Ext.blt]

lemma order_moves_perm (b : Board) (color : Cell) (ms : List Move) :
    (AI.order_moves b color ms).Perm ms := by
  unfold AI.order_moves
  have h1 := List.mergeSort_perm (ms.map (fun m => (AI.quick_move_eval b m color, m)))
    (fun x y => decide (y.1 ≤ x.1))
  have h2 := h1.map (fun x : Int × Move => x.2)
  simpa [List.map_map, Function.comp_def] using h2

lemma chooseLoop_subset (b : Board) (color : Cell) (d : Nat) :
    ∀ (ms : List Move) (bs : Ext) (bm : List Move) (al : Ext) (T : Table) (m : Move),
      m ∈ (chooseLoop b color d ms bs bm al T).1 → m ∈ bm ∨ m ∈ ms := by
  intro ms
  induction ms with
  | nil =>
    intro bs bm al T m hm
    exact Or.inl hm
  | cons mv rest ih =>
    intro bs bm al T m hm
    rw [chooseLoop] at hm
    by_cases h1 : Ext.blt bs
        (searchAB ((cloneFor b color).make_move mv) (d - 1) Ext.negInf al.neg
          (OPP color) T).1.neg = true
    · rw [if_pos h1] at hm
      rcases ih _ _ _ _ m hm with h | h
      · simp only [List.mem_singleton] at h
        exact Or.inr (by simp [h])
      · exact Or.inr (List.mem_cons_of_mem _ h)
    · rw [if_neg h1] at hm
      by_cases h2 : (searchAB ((cloneFor b color).make_move mv) (d - 1) Ext.negInf al.neg
          (OPP color) T).1.neg = bs
      · rw [if_pos h2] at hm
        rcases ih _ _ _ _ m hm with h | h
        · rcases List.mem_append.mp h with h' | h'
          · exact Or.inl h'
          · simp only [List.mem_singleton] at h'
            exact Or.inr (by simp [h'])
        · exact Or.inr (List.mem_cons_of_mem _ h)
      · rw [if_neg h2] at hm
        rcases ih _ _ _ _ m hm with h | h
        · exact Or.inl h
        · exact Or.inr (List.mem_cons_of_mem _ h)

lemma chooseLoop_ne_nil_of_ne_nil (b : Board) (color : Cell) (d : Nat) :
    ∀ (ms : List Move) (bs : Ext) (bm : List Move) (al : Ext) (T : Table),
      bm ≠ [] → (chooseLoop b color d ms bs bm al T).1 ≠ [] := by
  intro ms
  induction ms with
  | nil =>
    intro bs bm al T h
    exact h
  | cons mv rest ih =>
    intro bs bm al T h
    rw [chooseLoop]
    by_cases h1 : Ext.blt bs
        (searchAB ((cloneFor b color).make_move mv) (d - 1) Ext.negInf al.neg
          (OPP color) T).1.neg = true
    · rw [if_pos h1]
      exact ih _ _ _ _ (by simp)
    · rw [if_neg h1]
      by_cases h2 : (searchAB ((cloneFor b color).make_move mv) (d - 1) Ext.negInf al.neg
          (OPP color) T).1.neg = bs
      · rw [if_pos h2]
        exact ih _ _ _ _ (by simp)
      · rw [if_neg h2]
        exact ih _ _ _ _ h

lemma chooseLoop_ne_nil (b : Board) (color : Cell) (d : Nat) (mv : Move) (rest : List Move)
    (T : Table) :
    (chooseLoop b color d (mv :: rest) Ext.negInf [] Ext.negInf T).1 ≠ [] := by
  rw [chooseLoop]
  by_cases h1 : Ext.blt Ext.negInf
      (searchAB ((cloneFor b color).make_move mv) (d - 1) Ext.negInf Ext.negInf.neg
        (OPP color) T).1.neg = true
  · rw [if_pos h1]
    exact chooseLoop_ne_nil_of_ne_nil b color d _ _ _ _ _ (by simp)
  · rw [if_neg h1]
    have h2 : (searchAB ((cloneFor b color).make_move mv) (d - 1) Ext.negInf Ext.negInf.neg
        (OPP color) T).1.neg = Ext.negInf :=
      (blt_negInf_eq_false_iff _).mp (Bool.eq_false_iff.mpr h1)
    rw [if_pos h2]
    exact chooseLoop_ne_nil_of_ne_nil b color d _ _ _ _ _ (by simp)

lemma chooseLoop_singleton (b : Board) (color : Cell) (d : Nat) (mv : Move) (T : Table) :
    (chooseLoop b color d [mv] Ext.negInf [] Ext.negInf T).1 = [mv] := by
  rw [chooseLoop]
  by_cases h1 : Ext.blt Ext.negInf
      (searchAB ((cloneFor b color).make_move mv) (d - 1) Ext.negInf Ext.negInf.neg
        (OPP color) T).1.neg = true
  · rw [if_pos h1, chooseLoop]
  · rw [if_neg h1]
    have h2 : (searchAB ((cloneFor b color).make_move mv) (d - 1) Ext.negInf Ext.negInf.neg
        (OPP color) T).1.neg = Ext.negInf :=
      (blt_negInf_eq_false_iff _).mp (Bool.eq_false_iff.mpr h1)
    rw [if_pos h2, chooseLoop]
    simp

/-- Claim C8: `choose` returns `None` exactly when the color has no legal
move (and never fails: it is a total function in this embedding, matching
the exception-free Python body); otherwise it returns one of the legal
moves, and on a position with exactly one legal move it returns that move
for every configured depth, every random outcome, and every table state. -/
theorem choose_sound (max_depth seed : Nat) (b : Board) (color : Cell) (T : Table) :
    (choose max_depth seed b color T = none ↔ b.legal_moves (some color) = []) ∧
    (∀ m : Move, choose max_depth seed b color T = some m → m ∈ b.legal_moves (some color)) ∧
    (∀ m : Move, b.legal_moves (some color) = [m] → choose max_depth seed b color T = some m) := by
  unfold choose
  by_cases hmv : (b.legal_moves (some color)).isEmpty
  · rw [if_pos hmv]
    have hnil : b.legal_moves (some color) = [] := List.isEmpty_iff.mp hmv
    refine ⟨by simp [hnil], by simp, ?_⟩
    intro m hm
    rw [hm] at hnil
    exact absurd hnil (by simp)
  · rw [if_neg hmv]
    have hne : b.legal_moves (some color) ≠ [] := by
      intro h
      exact hmv (by simp [h])
    dsimp only
    obtain ⟨mv0, rest0, hms⟩ :
        ∃ mv0 rest0, AI.order_moves b color (b.legal_moves (some color)) = mv0 :: rest0 := by
      have : AI.order_moves b color (b.legal_moves (some color)) ≠ [] := by
        intro h
        have hp := order_moves_perm b color (b.legal_moves (some color))
        rw [h] at hp
        exact hne hp.symm.eq_nil
      exact List.exists_cons_of_ne_nil this
    rw [hms]
    set T' := if T.length > 10000 then ([] : Table) else T with hT'
    set D := if 5 * (b.score.1 + b.score.2) > 4 * (b.size * b.size) ∨
        (b.legal_moves (some color)).length ≤ 4 then Min.min (max_depth + 2) 8
      else if (b.legal_moves (some color)).length > 15 then Max.max (max_depth - 1) 3
      else max_depth with hD
    have hbm : (chooseLoop b color D (mv0 :: rest0) Ext.negInf [] Ext.negInf T').1 ≠ [] :=
      chooseLoop_ne_nil b color D mv0 rest0 T'
    rw [if_neg (by simpa [List.isEmpty_iff] using hbm)]
    have hlen : 0 < (chooseLoop b color D (mv0 :: rest0) Ext.negInf [] Ext.negInf T').1.length :=
      List.length_pos.mpr hbm
    have hidx : seed % (chooseLoop b color D (mv0 :: rest0) Ext.negInf [] Ext.negInf T').1.length <
        (chooseLoop b color D (mv0 :: rest0) Ext.negInf [] Ext.negInf T').1.length :=
      Nat.mod_lt _ hlen
    rw [List.getElem?_eq_getElem hidx]
    refine ⟨by simp [hne], ?_, ?_⟩
    · intro m hm
      obtain rfl := Option.some.inj hm
      have hmem : _ ∈ (chooseLoop b color D (mv0 :: rest0) Ext.negInf [] Ext.negInf T').1 :=
        List.getElem_mem hidx
      rcases chooseLoop_subset b color D _ _ _ _ _ _ hmem with h | h
      · exact absurd h (List.not_mem_nil _)
      · have hperm : (mv0 :: rest0).Perm (b.legal_moves (some color)) := by
          rw [← hms]
          exact order_moves_perm b color _
        exact hperm.subset h
    · intro m hmone
      rw [hmone] at hms
      have hone : AI.order_moves b color [m] = [m] :=
        List.perm_singleton.mp (order_moves_perm b color [m])
      rw [hone] at hms
      injection hms with hm1 hm2
      subst hm1
      subst hm2
      have hbm1 := chooseLoop_singleton b color D m T'
      simp [hbm1]

/-- Claim C8, witness: a position with exactly one legal move, on which
`choose` returns that move. -/
theorem choose_sound_witness :
    singleMove4.legal_moves (some BLACK) = [⟨0, 2, [(0, 1)]⟩] ∧
    choose 4 7 singleMove4 BLACK [] = some ⟨0, 2, [(0, 1)]⟩ :=
  ⟨by decide, (choose_sound 4 7 singleMove4 BLACK []).2.2 _ (by decide)⟩

/-! ## Claim C1, part 1: order facts about `Ext`

Throughout, `Ext.blt x y = true` reads `x < y` and `Ext.blt y x = false`
reads `x ≤ y`. -/

lemma ext_blt_irrefl (x : Ext) : Ext.blt x x = false := by
  cases x <;> simp [Ext.blt]

lemma ext_blt_asymm {x y : Ext} (h : Ext.blt x y = true) : Ext.blt y x = false := by
  cases x <;> cases y <;> simp_all [Ext.blt] <;> omega

lemma ext_eq_of_not_blt {x y : Ext} (h1 : Ext.blt x y = false) (h2 : Ext.blt y x = false) :
    x = y := by
  cases x <;> cases y <;> simp_all [Ext.blt] <;> omega

lemma ext_nlt_trans {x y z : Ext} (h1 : Ext.blt x y = false) (h2 : Ext.blt y z = false) :
    Ext.blt x z = false := by
  cases x <;> cases y <;> cases z <;> simp_all [Ext.blt] <;> omega

lemma ext_lt_of_le_of_lt {a x b : Ext} (h1 : Ext.blt a x = false) (h2 : Ext.blt a b = true) :
    Ext.blt x b = true := by
  cases a <;> cases x <;> cases b <;> simp_all [Ext.blt] <;> omega

lemma ext_lt_of_lt_of_le {x y z : Ext} (h1 : Ext.blt x y = true) (h2 : Ext.blt z y = false) :
    Ext.blt x z = true := by
  cases x <;> cases y <;> cases z <;> simp_all [Ext.blt] <;> omega

lemma ext_neg_neg (x : Ext) : x.neg.neg = x := by
  cases x <;> simp [Ext.neg]

lemma ext_blt_neg (x y : Ext) : Ext.blt x.neg y.neg = Ext.blt y x := by
  cases x <;> cases y <;> simp [Ext.blt, Ext.neg] <;> omega

lemma ext_blt_negInf (x : Ext) : Ext.blt x Ext.negInf = false := by
  cases x <;> simp [Ext.blt]

lemma ext_blt_posInf_iff (x : Ext) : Ext.blt x Ext.posInf = false ↔ x = Ext.posInf := by
  cases x <;> simp [Ext.blt]

lemma ext_max_ge_left (a b : Ext) : Ext.blt (Ext.max a b) a = false := by
  unfold Ext.max
  by_cases h : Ext.blt a b = true
  · rw [if_pos h]
    exact ext_blt_asymm h
  · rw [if_neg h]
    exact ext_blt_irrefl a

lemma ext_max_ge_right (a b : Ext) : Ext.blt (Ext.max a b) b = false := by
  unfold Ext.max
  by_cases h : Ext.blt a b = true
  · rw [if_pos h]
    exact ext_blt_irrefl b
  · rw [if_neg h]
    exact Bool.eq_false_iff.mpr h

lemma ext_max_cases (a b : Ext) : Ext.max a b = a ∨ Ext.max a b = b := by
  unfold Ext.max
  by_cases h : Ext.blt a b = true
  · rw [if_pos h]; exact Or.inr rfl
  · rw [if_neg h]; exact Or.inl rfl

lemma ext_max_eq_left {a b : Ext} (h : Ext.blt a b = false) : Ext.max a b = a := by
  unfold Ext.max
  rw [h]
  rfl

lemma ext_max_eq_right {a b : Ext} (h : Ext.blt b a = false) : Ext.max a b = b := by
  unfold Ext.max
  by_cases h1 : Ext.blt a b = true
  · rw [if_pos h1]
  · rw [if_neg h1]
    exact ext_eq_of_not_blt (Bool.eq_false_iff.mpr h1) h

lemma ext_max_le {c a b : Ext} (h1 : Ext.blt c a = false) (h2 : Ext.blt c b = false) :
    Ext.blt c (Ext.max a b) = false := by
  rcases ext_max_cases a b with h | h <;> rw [h] <;> assumption

lemma ext_blt_max_of_blt_right {c a b : Ext} (h : Ext.blt c b = true) :
    Ext.blt c (Ext.max a b) = true := by
  have := ext_max_ge_right a b
  exact ext_lt_of_lt_of_le h this

lemma ext_max_mono_left {a a' c : Ext} (h : Ext.blt a' a = false) :
    Ext.blt (Ext.max a' c) (Ext.max a c) = false := by
  refine ext_max_le ?_ ?_
  · exact ext_nlt_trans (ext_max_ge_left a' c) h
  · exact ext_max_ge_right a' c

lemma ext_max_mono_right {b v w : Ext} (h : Ext.blt w v = false) :
    Ext.blt (Ext.max b w) (Ext.max b v) = false := by
  refine ext_max_le ?_ ?_
  · exact ext_max_ge_left b w
  · exact ext_nlt_trans (ext_max_ge_right b w) h

lemma ext_max_comm (a b : Ext) : Ext.max a b = Ext.max b a := by
  rcases ext_max_cases a b with h | h <;> rw [h]
  · exact (ext_max_eq_right (h ▸ ext_max_ge_right a b)).symm
  · exact (ext_max_eq_left (h ▸ ext_max_ge_left a b)).symm

lemma ext_max_assoc (a b c : Ext) : Ext.max (Ext.max a b) c = Ext.max a (Ext.max b c) := by
  cases a <;> cases b <;> cases c <;>
    simp [Ext.max, Ext.blt] <;> split_ifs <;> simp_all [Ext.blt] <;> omega

lemma ext_max_negInf (v : Ext) : Ext.max Ext.negInf v = v := by
  cases v <;> simp [Ext.max, Ext.blt]

/-! ## Claim C1, part 2: facts about `trueFold` -/

lemma trueFold_cons (b : Board) (d : Nat) (color : Cell) (mv : Move) (rest : List Move)
    (best : Ext) :
    trueFold b d color (mv :: rest) best =
      trueFold b d color rest (Ext.max best (childValue b d color mv)) := rfl

lemma trueFold_ge_best (b : Board) (d : Nat) (color : Cell) :
    ∀ (ms : List Move) (best : Ext), Ext.blt (trueFold b d color ms best) best = false := by
  intro ms
  induction ms with
  | nil => intro best; exact ext_blt_irrefl best
  | cons mv rest ih =>
    intro best
    rw [trueFold_cons]
    exact ext_nlt_trans (ih _) (ext_max_ge_left _ _)

lemma trueFold_mono (b : Board) (d : Nat) (color : Cell) :
    ∀ (ms : List Move) {best best' : Ext}, Ext.blt best' best = false →
      Ext.blt (trueFold b d color ms best') (trueFold b d color ms best) = false := by
  intro ms
  induction ms with
  | nil => intro best best' h; exact h
  | cons mv rest ih =>
    intro best best' h
    rw [trueFold_cons, trueFold_cons]
    exact ih (ext_max_mono_left h)

lemma trueFold_split (b : Board) (d : Nat) (color : Cell) :
    ∀ (ms : List Move) (best : Ext),
      trueFold b d color ms best = Ext.max best (trueFold b d color ms Ext.negInf) := by
  intro ms
  induction ms with
  | nil =>
    intro best
    exact (ext_max_eq_left (ext_blt_negInf best)).symm
  | cons mv rest ih =>
    intro best
    rw [trueFold_cons, trueFold_cons, ih, ih (Ext.max Ext.negInf _), ext_max_negInf,
      ext_max_assoc]

lemma trueFold_perm (b : Board) (d : Nat) (color : Cell) {ms ms' : List Move}
    (h : ms.Perm ms') :
    ∀ best : Ext, trueFold b d color ms best = trueFold b d color ms' best := by
  induction h with
  | nil => intro best; rfl
  | cons x _ ih =>
    intro best
    rw [trueFold_cons, trueFold_cons, ih]
  | swap x y l =>
    intro best
    rw [trueFold_cons, trueFold_cons, trueFold_cons, trueFold_cons, ext_max_assoc,
      ext_max_assoc, ext_max_comm (childValue b d color y) (childValue b d color x)]
  | trans _ _ ih1 ih2 =>
    intro best
    rw [ih1, ih2]

/-! ## Claim C1, part 3: fail-soft alpha-beta correctness (Knuth–Moore)

`pureLoop_KM` relates the alpha-beta move loop to the plain `Ext.max` fold
of the true child values; `pureAB_KM` lifts it to whole nodes, and
`pureAB_eq_fullSearch` instantiates the full window. -/

lemma pureLoop_KM (b : Board) (d : Nat) (beta : Ext) (color : Cell)
    (IH : ∀ (b' : Board) (a' b2 : Ext) (c' : Cell), Ext.blt a' b2 = true →
      (Ext.blt a' (pureAB b' d a' b2 c') = false →
        Ext.blt (pureAB b' d a' b2 c') (fullSearch b' d c') = false) ∧
      (Ext.blt (pureAB b' d a' b2 c') b2 = false →
        Ext.blt (fullSearch b' d c') (pureAB b' d a' b2 c') = false) ∧
      (Ext.blt a' (pureAB b' d a' b2 c') = true →
        Ext.blt (pureAB b' d a' b2 c') b2 = true →
        pureAB b' d a' b2 c' = fullSearch b' d c')) :
    ∀ (ms : List Move) (best alpha : Ext),
      Ext.blt alpha beta = true → Ext.blt alpha best = false →
      (Ext.blt alpha (pureLoop b d beta color ms best alpha) = false →
        Ext.blt (pureLoop b d beta color ms best alpha) (trueFold b d color ms best) = false) ∧
      (Ext.blt (pureLoop b d beta color ms best alpha) beta = false →
        Ext.blt (trueFold b d color ms best) (pureLoop b d beta color ms best alpha) = false) ∧
      (Ext.blt alpha (pureLoop b d beta color ms best alpha) = true →
        Ext.blt (pureLoop b d beta color ms best alpha) beta = true →
        pureLoop b d beta color ms best alpha = trueFold b d color ms best) ∧
      Ext.blt (pureLoop b d beta color ms best alpha) best = false := by
  intro ms
  induction ms with
  | nil =>
    intro best alpha hab hba
    rw [pureLoop]
    exact ⟨fun _ => ext_blt_irrefl best, fun _ => ext_blt_irrefl best, fun _ _ => rfl,
      ext_blt_irrefl best⟩
  | cons mv rest ih =>
    intro best alpha hab hba
    rw [pureLoop, trueFold_cons]
    have hwin : Ext.blt beta.neg alpha.neg = true := by rw [ext_blt_neg]; exact hab
    obtain ⟨cA, cB, cC⟩ := IH ((cloneFor b color).make_move mv) beta.neg alpha.neg
      (OPP color) hwin
    set r' := pureAB ((cloneFor b color).make_move mv) d beta.neg alpha.neg (OPP color)
      with hr'
    set v' := fullSearch ((cloneFor b color).make_move mv) d (OPP color) with hv'
    have hcv : childValue b d color mv = v'.neg := by unfold childValue; rw [hv']
    rw [hcv]
    have tA : Ext.blt r'.neg beta = false → Ext.blt v'.neg r'.neg = false := by
      intro h
      have e1 : Ext.blt beta.neg r'.neg.neg = Ext.blt r'.neg beta := ext_blt_neg beta r'.neg
      rw [ext_neg_neg] at e1
      have h2 := cA (by rw [e1]; exact h)
      rw [ext_blt_neg]
      exact h2
    have tB : Ext.blt alpha r'.neg = false → Ext.blt r'.neg v'.neg = false := by
      intro h
      have e1 : Ext.blt r'.neg.neg alpha.neg = Ext.blt alpha r'.neg := ext_blt_neg r'.neg alpha
      rw [ext_neg_neg] at e1
      have h2 := cB (by rw [e1]; exact h)
      rw [ext_blt_neg]
      exact h2
    have tC : Ext.blt r'.neg beta = true → Ext.blt alpha r'.neg = true → r'.neg = v'.neg := by
      intro h1 h2
      have e1 : Ext.blt beta.neg r'.neg.neg = Ext.blt r'.neg beta := ext_blt_neg beta r'.neg
      rw [ext_neg_neg] at e1
      have e2 : Ext.blt r'.neg.neg alpha.neg = Ext.blt alpha r'.neg := ext_blt_neg r'.neg alpha
      rw [ext_neg_neg] at e2
      rw [cC (by rw [e1]; exact h1) (by rw [e2]; exact h2)]
    by_cases hcut : Ext.blt (Ext.max alpha r'.neg) beta = true
    · rw [if_neg (by simp [hcut])]
      have hba' : Ext.blt (Ext.max alpha r'.neg) (Ext.max best r'.neg) = false :=
        ext_max_mono_left hba
      obtain ⟨LA', LB', LC', LD'⟩ := ih (Ext.max best r'.neg) (Ext.max alpha r'.neg) hcut hba'
      by_cases hv : Ext.blt alpha r'.neg = true
      · -- the child value lies strictly above alpha and (by the no-cutoff
        -- hypothesis) strictly below beta, so it is exact: value = w
        have hval : Ext.blt r'.neg beta = true :=
          ext_lt_of_le_of_lt (ext_max_ge_right alpha r'.neg) hcut
        have heq : r'.neg = v'.neg := tC hval hv
        have halpha' : Ext.max alpha r'.neg = r'.neg := ext_max_eq_right (ext_blt_asymm hv)
        rw [← heq]
        rw [halpha'] at LA' LB' LC' LD' ⊢
        refine ⟨?_, ?_, ?_, ?_⟩
        · intro h
          have h1 : Ext.blt (pureLoop b d beta color rest (Ext.max best r'.neg) r'.neg)
              r'.neg = false := ext_nlt_trans LD' (ext_max_ge_right best r'.neg)
          have h2 := ext_lt_of_lt_of_le hv h1
          rw [h] at h2
          exact absurd h2 (by simp)
        · exact LB'
        · intro _ h2
          by_cases h3 : Ext.blt r'.neg
              (pureLoop b d beta color rest (Ext.max best r'.neg) r'.neg) = true
          · exact LC' h3 h2
          · have hge : Ext.blt (pureLoop b d beta color rest (Ext.max best r'.neg) r'.neg)
                r'.neg = false := ext_nlt_trans LD' (ext_max_ge_right best r'.neg)
            have heq2 : pureLoop b d beta color rest (Ext.max best r'.neg) r'.neg = r'.neg :=
              ext_eq_of_not_blt hge (Bool.eq_false_iff.mpr h3)
            have h5 := LA' (Bool.eq_false_iff.mpr h3)
            have h6 : Ext.blt (trueFold b d color rest (Ext.max best r'.neg))
                (pureLoop b d beta color rest (Ext.max best r'.neg) r'.neg) = false := by
              rw [heq2]
              exact ext_nlt_trans (trueFold_ge_best b d color rest _)
                (ext_max_ge_right best r'.neg)
            exact ext_eq_of_not_blt h5 h6
        · exact ext_nlt_trans LD' (ext_max_ge_left best r'.neg)
      · -- the child failed low (value ≤ alpha): its value only bounds w
        -- from above, and alpha is unchanged
        have hvle : Ext.blt alpha r'.neg = false := Bool.eq_false_iff.mpr hv
        have hwv : Ext.blt r'.neg v'.neg = false := tB hvle
        have halpha' : Ext.max alpha r'.neg = alpha := ext_max_eq_left hvle
        rw [halpha'] at LA' LB' LC' LD' ⊢
        have hmw : Ext.blt (Ext.max best r'.neg) (Ext.max best v'.neg) = false :=
          ext_max_mono_right hwv
        have htt' : Ext.blt (trueFold b d color rest (Ext.max best r'.neg))
            (trueFold b d color rest (Ext.max best v'.neg)) = false :=
          trueFold_mono b d color rest hmw
        have hXa : Ext.blt alpha (Ext.max best r'.neg) = false := ext_max_le hba hvle
        refine ⟨?_, ?_, ?_, ?_⟩
        · intro h
          exact ext_nlt_trans (LA' h) htt'
        · intro h
          have hLB := LB' h
          rw [trueFold_split] at hLB
          have hXr : Ext.blt (Ext.max best r'.neg)
              (pureLoop b d beta color rest (Ext.max best r'.neg) alpha) = true :=
            ext_lt_of_lt_of_le (ext_lt_of_le_of_lt hXa hab) h
          have hrW : Ext.blt (trueFold b d color rest Ext.negInf)
              (pureLoop b d beta color rest (Ext.max best r'.neg) alpha) = false := by
            rcases ext_max_cases (Ext.max best r'.neg) (trueFold b d color rest Ext.negInf)
              with hM | hM
            · exfalso
              rw [hM] at hLB
              rw [hLB] at hXr
              exact absurd hXr (by simp)
            · rw [hM] at hLB
              exact hLB
          rw [trueFold_split]
          exact ext_nlt_trans (ext_max_ge_right _ _) hrW
        · intro h1 h2
          have heqr := LC' h1 h2
          have hXr : Ext.blt (Ext.max best r'.neg)
              (pureLoop b d beta color rest (Ext.max best r'.neg) alpha) = true :=
            ext_lt_of_le_of_lt hXa h1
          have ht'W : trueFold b d color rest (Ext.max best r'.neg) =
              trueFold b d color rest Ext.negInf := by
            rw [trueFold_split]
            rcases ext_max_cases (Ext.max best r'.neg) (trueFold b d color rest Ext.negInf)
              with hM | hM
            · exfalso
              rw [trueFold_split] at heqr
              rw [hM] at heqr
              rw [heqr] at hXr
              exact absurd hXr (by simp [ext_blt_irrefl])
            · rw [hM]
          have hrw2 : pureLoop b d beta color rest (Ext.max best r'.neg) alpha =
              trueFold b d color rest Ext.negInf := heqr.trans ht'W
          have hbW : Ext.blt (trueFold b d color rest Ext.negInf) best = false := by
            have h3 : Ext.blt best
                (pureLoop b d beta color rest (Ext.max best r'.neg) alpha) = true :=
              ext_lt_of_le_of_lt hba h1
            rw [hrw2] at h3
            exact ext_blt_asymm h3
          have hwW : Ext.blt (trueFold b d color rest Ext.negInf) v'.neg = false := by
            have hwa : Ext.blt alpha v'.neg = false := ext_nlt_trans hvle hwv
            have h3 : Ext.blt v'.neg
                (pureLoop b d beta color rest (Ext.max best r'.neg) alpha) = true :=
              ext_lt_of_le_of_lt hwa h1
            rw [hrw2] at h3
            exact ext_blt_asymm h3
          have hYW : Ext.blt (trueFold b d color rest Ext.negInf)
              (Ext.max best v'.neg) = false := ext_max_le hbW hwW
          rw [trueFold_split b d color rest (Ext.max best v'.neg), ext_max_eq_right hYW]
          exact hrw2
        · exact ext_nlt_trans LD' (ext_max_ge_left best r'.neg)
    · -- cutoff: beta ≤ max alpha value forces beta ≤ value, and the loop
      -- returns max best value, a lower bound on the true fold
      have hcf : Ext.blt (Ext.max alpha r'.neg) beta = false := Bool.eq_false_iff.mpr hcut
      rw [if_pos (by simp [hcf])]
      have hbv : Ext.blt r'.neg beta = false := by
        rcases ext_max_cases alpha r'.neg with hM | hM
        · exfalso
          rw [hM] at hcf
          exact absurd hab (by simp [hcf])
        · rw [hM] at hcf
          exact hcf
      have hvw : Ext.blt v'.neg r'.neg = false := tA hbv
      refine ⟨?_, ?_, ?_, ext_max_ge_left best r'.neg⟩
      · intro h
        have h1 : Ext.blt alpha r'.neg = true := ext_lt_of_lt_of_le hab hbv
        have h2 : Ext.blt alpha (Ext.max best r'.neg) = true := ext_blt_max_of_blt_right h1
        rw [h] at h2
        exact absurd h2 (by simp)
      · intro _
        have hmw : Ext.blt (Ext.max best v'.neg) (Ext.max best r'.neg) = false :=
          ext_max_mono_right hvw
        exact ext_nlt_trans (trueFold_ge_best b d color rest _) hmw
      · intro _ h2
        have h1 : Ext.blt (Ext.max best r'.neg) beta = false :=
          ext_nlt_trans (ext_max_ge_right best r'.neg) hbv
        rw [h1] at h2
        exact absurd h2 (by simp)

lemma pureAB_KM : ∀ (depth : Nat) (b : Board) (alpha beta : Ext) (color : Cell),
    Ext.blt alpha beta = true →
    (Ext.blt alpha (pureAB b depth alpha beta color) = false →
      Ext.blt (pureAB b depth alpha beta color) (fullSearch b depth color) = false) ∧
    (Ext.blt (pureAB b depth alpha beta color) beta = false →
      Ext.blt (fullSearch b depth color) (pureAB b depth alpha beta color) = false) ∧
    (Ext.blt alpha (pureAB b depth alpha beta color) = true →
      Ext.blt (pureAB b depth alpha beta color) beta = true →
      pureAB b depth alpha beta color = fullSearch b depth color) := by
  intro depth
  induction depth with
  | zero =>
    intro b alpha beta color hab
    rw [pureAB, fullSearch]
    exact ⟨fun _ => ext_blt_irrefl _, fun _ => ext_blt_irrefl _, fun _ _ => rfl⟩
  | succ d IHd =>
    intro b alpha beta color hab
    rw [pureAB, fullSearch]
    by_cases hover : b.game_over = true
    · rw [if_pos hover, if_pos hover]
      exact ⟨fun _ => ext_blt_irrefl _, fun _ => ext_blt_irrefl _, fun _ _ => rfl⟩
    · rw [if_neg hover, if_neg hover, pureMain]
      by_cases hmv : (b.legal_moves (some color)).isEmpty
      · rw [if_pos hmv, if_pos hmv]
        by_cases hopp : (b.legal_moves (some (OPP color))).isEmpty
        · rw [if_pos hopp, if_pos hopp]
          exact ⟨fun _ => ext_blt_irrefl _, fun _ => ext_blt_irrefl _, fun _ _ => rfl⟩
        · rw [if_neg hopp, if_neg hopp]
          have hwin : Ext.blt beta.neg alpha.neg = true := by rw [ext_blt_neg]; exact hab
          obtain ⟨cA, cB, cC⟩ := IHd b beta.neg alpha.neg (OPP color) hwin
          set r' := pureAB b d beta.neg alpha.neg (OPP color) with hr'
          set v' := fullSearch b d (OPP color) with hv'
          refine ⟨?_, ?_, ?_⟩
          · intro h
            have e1 : Ext.blt r'.neg.neg alpha.neg = Ext.blt alpha r'.neg :=
              ext_blt_neg r'.neg alpha
            rw [ext_neg_neg] at e1
            have h2 := cB (by rw [e1]; exact h)
            rw [ext_blt_neg]
            exact h2
          · intro h
            have e1 : Ext.blt beta.neg r'.neg.neg = Ext.blt r'.neg beta :=
              ext_blt_neg beta r'.neg
            rw [ext_neg_neg] at e1
            have h2 := cA (by rw [e1]; exact h)
            rw [ext_blt_neg]
            exact h2
          · intro h1 h2
            have e1 : Ext.blt beta.neg r'.neg.neg = Ext.blt r'.neg beta :=
              ext_blt_neg beta r'.neg
            rw [ext_neg_neg] at e1
            have e2 : Ext.blt r'.neg.neg alpha.neg = Ext.blt alpha r'.neg :=
              ext_blt_neg r'.neg alpha
            rw [ext_neg_neg] at e2
            rw [cC (by rw [e1]; exact h2) (by rw [e2]; exact h1)]
      · rw [if_neg hmv, if_neg hmv]
        have hveq : (b.legal_moves (some color)).foldl
            (fun acc mv =>
              Ext.max acc (fullSearch ((cloneFor b color).make_move mv) d (OPP color)).neg)
            Ext.negInf = trueFold b d color (b.legal_moves (some color)) Ext.negInf := rfl
        rw [hveq]
        have hperm : (if d + 1 > 2 then AI.order_moves b color (b.legal_moves (some color))
            else b.legal_moves (some color)).Perm (b.legal_moves (some color)) := by
          split
          · exact order_moves_perm b color _
          · exact List.Perm.refl _
        obtain ⟨LA, LB, LC, _⟩ := pureLoop_KM b d beta color IHd
          (if d + 1 > 2 then AI.order_moves b color (b.legal_moves (some color))
            else b.legal_moves (some color)) Ext.negInf alpha hab (ext_blt_negInf alpha)
        have hfold := trueFold_perm b d color hperm Ext.negInf
        rw [hfold] at LA LB LC
        exact ⟨LA, LB, LC⟩

lemma pureAB_eq_fullSearch (b : Board) (depth : Nat) (color : Cell) :
    pureAB b depth Ext.negInf Ext.posInf color = fullSearch b depth color := by
  obtain ⟨hA, hB, hC⟩ := pureAB_KM depth b Ext.negInf Ext.posInf color (by simp [Ext.blt])
  cases hr : pureAB b depth Ext.negInf Ext.posInf color with
  | negInf =>
    rw [hr] at hA
    have h1 := hA (ext_blt_irrefl Ext.negInf)
    have h2 := (blt_negInf_eq_false_iff _).mp h1
    rw [h2]
  | posInf =>
    rw [hr] at hB
    have h1 := hB (by simp [Ext.blt])
    have h2 := (ext_blt_posInf_iff _).mp h1
    rw [h2]
  | fin n =>
    rw [hr] at hC
    exact (hC (by simp [Ext.blt]) (by simp [Ext.blt])).symm.symm ▸ (hC (by simp [Ext.blt]) (by simp [Ext.blt]))

/-! ## Claim C1, part 4: the transposition table is transparent

Every key `search` writes is `str(board.serialize())` of the node that
wrote it, whose `move_list` extends the move log of the node by the moves
played to reach it; pass nodes do not append to the log and do not store.
Consequently, within one invocation started on a table with no key
extending the root's log (in particular an empty table), every lookup
misses, and `search` computes exactly `pureAB`. -/

lemma clone_make_move_list (b : Board) (color : Cell) (mv : Move) :
    ((cloneFor b color).make_move mv).move_list =
      b.move_list ++ [((color : Int), mv.row, mv.col)] := rfl

lemma tlookup_fresh {T : Table} {b : Board} (h : TFresh b.move_list T) :
    tlookup T b.serialize = none := by
  unfold tlookup
  cases hf : T.find? (fun e => e.1 == b.serialize) with
  | none => rfl
  | some e =>
    exfalso
    have hmem := List.mem_of_find?_eq_some hf
    have hpred := List.find?_some hf
    have he : e.1 = b.serialize := by simpa using hpred
    refine h e hmem ⟨b.move_list, ?_, ⟨[], List.append_nil _⟩⟩
    rw [he]
    rfl

lemma TFreshRest_child {L : List (Int × Int × Int)} {color : Cell} {mv : Move}
    {rest : List Move} {T : Table} (h : TFreshRest L color (mv :: rest) T) :
    TFresh (L ++ [((color : Int), mv.row, mv.col)]) T := by
  intro e he hext
  obtain ⟨ml, hml, t, happ⟩ := hext
  have hpre : mlPre L ml := ⟨((color : Int), mv.row, mv.col) :: t, by rw [← happ]; simp⟩
  obtain ⟨x, t', hx, hne⟩ := h e he ml hml hpre
  have hcat : L ++ ((color : Int), mv.row, mv.col) :: t = L ++ x :: t' := by
    rw [← hx, ← happ]
    simp
  have hcons := List.append_cancel_left hcat
  injection hcons with h1 _
  exact hne mv (List.mem_cons_self ..) h1.symm

lemma pairwise_keyNe (b : Board) (c? : Option Cell) :
    (b.legal_moves c?).Pairwise keyNe := by
  refine (legal_moves_pairwise b c?).imp ?_
  intro m1 m2 hlt heq
  have h1 : m1.row = m2.row ∧ m1.col = m2.col := by
    rw [Prod.ext_iff] at heq
    exact heq
  rcases hlt with h | h
  · omega
  · omega

lemma keyNe_symm : ∀ {m1 m2 : Move}, keyNe m1 m2 → keyNe m2 m1 := by
  intro m1 m2 h heq
  exact h heq.symm

lemma searchLoop_pure (d : Nat) (b : Board) (beta : Ext) (color : Cell)
    (IH : ∀ (b' : Board) (a2 b2 : Ext) (c' : Cell) (T : Table), TFresh b'.move_list T →
      (searchAB b' d a2 b2 c' T).1 = pureAB b' d a2 b2 c' ∧
      TNew b'.move_list T (searchAB b' d a2 b2 c' T).2) :
    ∀ (ms : List Move) (best alpha : Ext) (T : Table),
      TFreshRest b.move_list color ms T → ms.Pairwise keyNe →
      (searchLoop b d beta color ms best alpha T).1 = pureLoop b d beta color ms best alpha ∧
      (∀ e ∈ (searchLoop b d beta color ms best alpha T).2,
        e ∈ T ∨ ∃ ml x t, e.1.move_list = some ml ∧ ml = b.move_list ++ x :: t) := by
  intro ms
  induction ms with
  | nil =>
    intro best alpha T hT hpw
    rw [searchLoop, pureLoop]
    exact ⟨rfl, fun e he => Or.inl he⟩
  | cons mv rest ih =>
    intro best alpha T hT hpw
    rw [searchLoop, pureLoop]
    have hfr : TFresh ((cloneFor b color).make_move mv).move_list T := by
      rw [clone_make_move_list]
      exact TFreshRest_child hT
    obtain ⟨hv, hnew⟩ := IH ((cloneFor b color).make_move mv) beta.neg alpha.neg
      (OPP color) T hfr
    rw [hv]
    by_cases hc : (!Ext.blt
        (Ext.max alpha (pureAB ((cloneFor b color).make_move mv) d beta.neg alpha.neg
          (OPP color)).neg) beta) = true
    · rw [if_pos hc, if_pos hc]
      refine ⟨rfl, ?_⟩
      intro e he
      rcases hnew e he with h | h
      · exact Or.inl h
      · right
        obtain ⟨ml, hml, t, happ⟩ := h
        rw [clone_make_move_list] at happ
        exact ⟨ml, ((color : Int), mv.row, mv.col), t, hml, by rw [← happ]; simp⟩
    · rw [if_neg hc, if_neg hc]
      have hT' : TFreshRest b.move_list color rest
          (searchAB ((cloneFor b color).make_move mv) d beta.neg alpha.neg (OPP color) T).2 := by
        intro e he ml hml hpre
        rcases hnew e he with h | h
        · obtain ⟨x, t, hx, hne⟩ := hT e h ml hml hpre
          exact ⟨x, t, hx, fun mv' hmv' => hne mv' (List.mem_cons_of_mem _ hmv')⟩
        · obtain ⟨ml', hml', t, happ⟩ := h
          have hmleq : ml' = ml := Option.some.inj (hml'.symm.trans hml)
          rw [clone_make_move_list] at happ
          refine ⟨((color : Int), mv.row, mv.col), t, ?_, ?_⟩
          · rw [← hmleq, ← happ]
            simp
          · intro mv' hmv' heq
            injection heq with ha hb
            exact (List.pairwise_cons.mp hpw).1 mv' hmv' hb
      have hpw' := (List.pairwise_cons.mp hpw).2
      obtain ⟨hv2, hnew2⟩ := ih (Ext.max best (pureAB ((cloneFor b color).make_move mv) d
          beta.neg alpha.neg (OPP color)).neg)
        (Ext.max alpha (pureAB ((cloneFor b color).make_move mv) d beta.neg alpha.neg
          (OPP color)).neg) _ hT' hpw'
      refine ⟨hv2, ?_⟩
      intro e he
      rcases hnew2 e he with h | h
      · rcases hnew e h with h2 | h2
        · exact Or.inl h2
        · right
          obtain ⟨ml, hml, t, happ⟩ := h2
          rw [clone_make_move_list] at happ
          exact ⟨ml, ((color : Int), mv.row, mv.col), t, hml, by rw [← happ]; simp⟩
      · exact Or.inr h

lemma searchMain_pure (d : Nat)
    (IH : ∀ (b' : Board) (a2 b2 : Ext) (c' : Cell) (T : Table), TFresh b'.move_list T →
      (searchAB b' d a2 b2 c' T).1 = pureAB b' d a2 b2 c' ∧
      TNew b'.move_list T (searchAB b' d a2 b2 c' T).2)
    (b : Board) (alpha beta : Ext) (color : Cell) (T : Table) (hT : TFresh b.move_list T) :
    (searchMain b d alpha beta color T).1 = pureMain b d alpha beta color ∧
    TNew b.move_list T (searchMain b d alpha beta color T).2 := by
  rw [searchMain, pureMain]
  by_cases hmv : (b.legal_moves (some color)).isEmpty
  · rw [if_pos hmv, if_pos hmv]
    by_cases hopp : (b.legal_moves (some (OPP color))).isEmpty
    · rw [if_pos hopp, if_pos hopp]
      dsimp only
      constructor
      · rw [apply_ite (fun p : Ext × Table => p.1)]
      · intro e he
        rw [apply_ite (fun p : Ext × Table => p.2), ite_self] at he
        exact Or.inl he
    · rw [if_neg hopp, if_neg hopp]
      obtain ⟨hv, hnew⟩ := IH b beta.neg alpha.neg (OPP color) T hT
      dsimp only
      exact ⟨by rw [hv], hnew⟩
  · rw [if_neg hmv, if_neg hmv]
    have hpair0 : (b.legal_moves (some color)).Pairwise keyNe := pairwise_keyNe b (some color)
    have hpairwise : (if d + 1 > 2 then AI.order_moves b color (b.legal_moves (some color))
        else b.legal_moves (some color)).Pairwise keyNe := by
      split
      · exact ((order_moves_perm b color _).pairwise_iff @keyNe_symm).mpr hpair0
      · exact hpair0
    have hTrest : TFreshRest b.move_list color
        (if d + 1 > 2 then AI.order_moves b color (b.legal_moves (some color))
          else b.legal_moves (some color)) T := by
      intro e he ml hml hpre
      exact absurd ⟨ml, hml, hpre⟩ (hT e he)
    obtain ⟨hv, hnew⟩ := searchLoop_pure d b beta color IH
      (if d + 1 > 2 then AI.order_moves b color (b.legal_moves (some color))
        else b.legal_moves (some color)) Ext.negInf alpha T hTrest hpairwise
    dsimp only
    refine ⟨hv, ?_⟩
    intro e he
    unfold tinsert at he
    rcases List.mem_cons.mp he with heq | hmem
    · right
      rw [heq]
      exact ⟨b.move_list, rfl, [], List.append_nil _⟩
    · have hmem2 := List.mem_of_mem_filter hmem
      rcases hnew e hmem2 with h | h
      · exact Or.inl h
      · right
        obtain ⟨ml, x, t, hml, happ⟩ := h
        exact ⟨ml, hml, x :: t, happ.symm⟩

lemma searchAB_pure : ∀ (depth : Nat) (b : Board) (alpha beta : Ext) (color : Cell)
    (T : Table), TFresh b.move_list T →
    (searchAB b depth alpha beta color T).1 = pureAB b depth alpha beta color ∧
    TNew b.move_list T (searchAB b depth alpha beta color T).2 := by
  intro depth
  induction depth with
  | zero =>
    intro b alpha beta color T hT
    rw [searchAB, pureAB]
    exact ⟨rfl, fun e he => Or.inl he⟩
  | succ d IHd =>
    intro b alpha beta color T hT
    rw [searchAB, pureAB]
    by_cases hover : b.game_over = true
    · rw [if_pos hover, if_pos hover]
      exact ⟨rfl, fun e he => Or.inl he⟩
    · rw [if_neg hover, if_neg hover, tlookup_fresh hT]
      exact searchMain_pure d IHd b alpha beta color T hT

/-- Claim C1: for every reachable 4×4 state, every color and every depth
at most 3, the alpha-beta pruned `AI.search` — with its move ordering and
its transposition cache, starting (as on a fresh engine) from the empty
cache and the full window — returns exactly the value of the unpruned
full minimax `fullSearch` of the same depth from the same position and
color.  (The proof in fact never uses the size, reachability or depth
bounds: every in-invocation cache key embeds the move log of the node
that wrote it, so all lookups of a search started on an empty table miss,
and fail-soft alpha-beta with a full root window equals full minimax.) -/
theorem search_eq_full_minimax (b : Board) (color : Cell) (depth : Nat)
    (hc : color = BLACK ∨ color = WHITE) (h4 : b.size = 4) (hreach : Reachable b)
    (hd : depth ≤ 3) :
    (searchAB b depth Ext.negInf Ext.posInf color []).1 = fullSearch b depth color := by
  have h := searchAB_pure depth b Ext.negInf Ext.posInf color []
    (fun e he => absurd he (List.not_mem_nil e))
  rw [h.1, pureAB_eq_fullSearch]

/-- Claim C1, witness. -/
theorem search_eq_full_minimax_witness :
    (BLACK = BLACK ∨ BLACK = WHITE) ∧ (Board.fresh 4).size = 4 ∧
    Reachable (Board.fresh 4) ∧ (3 : Nat) ≤ 3 ∧
    (searchAB (Board.fresh 4) 3 Ext.negInf Ext.posInf BLACK []).1 =
      fullSearch (Board.fresh 4) 3 BLACK :=
  ⟨Or.inl rfl, rfl, Reachable.fresh 4, by decide,
    search_eq_full_minimax (Board.fresh 4) BLACK 3 (Or.inl rfl) rfl (Reachable.fresh 4)
      (by decide)⟩

end Iago
